import Mathlib

/-!
Verification development for the filter-dom-url repository.

The single source file (src/index.js) keeps a set of form controls in sync
with the query string of the page address. We give a shallow embedding of
its logic:

* JavaScript string primitives used by the code: `String.prototype.split`
  with a one-character separator, `Array.prototype.join`, template-literal
  coercion of arrays (join with a comma) and of `null` (the text "null"),
  `Array.prototype.indexOf` and `Array.prototype.splice(i, 1)` including
  the negative-index clamping rule.
* `URLSearchParams` as an ordered list of name/value pairs with `get`,
  `has`, `set` (replace first occurrence, drop the rest), `delete`
  (drop all occurrences) and `append`.
* The form as a list of controls. Each control carries its immutable
  attributes (the filter-name attribute, lower-cased tag name, the
  `multiple` flag, the input type, the `value` attribute used by attribute
  selectors) and its mutable state (current value property, checked flag,
  and the option list of a select). `querySelector` is first-match search
  in document order; property writes never change the attributes that
  selectors match on.

The functions `checkFilterType`, `parseFiltersFromUrl`,
`updateFiltersFromUrl` (the write-to-DOM direction, with the thrown
`TypeError` of a failed member lookup surfaced as a Boolean error flag and
partial mutation kept, matching exception propagation out of `forEach`)
and `updateUrlFromFilters` (the change-event direction) are translated
line by line from the source.
-/

namespace FilterDomUrl

/-! ## JavaScript string primitives -/

/-- Model of `String.prototype.split` with a single-character separator,
at the character-list level. JavaScript split never returns an empty
array: splitting the empty string yields one empty piece. -/
def jsSplitChars (sep : Char) : List Char → List (List Char)
  | [] => [[]]
  | c :: cs =>
    if c = sep then [] :: jsSplitChars sep cs
    else
      match jsSplitChars sep cs with
      | [] => [[c]]
      | t :: ts => (c :: t) :: ts

/-- Model of `Array.prototype.join` with a single-character separator, at
the character-list level. -/
def jsJoinChars (sep : Char) : List (List Char) → List Char
  | [] => []
  | [x] => x
  | x :: y :: ys => x ++ sep :: jsJoinChars sep (y :: ys)

/-- The string-level split used by the source (`VALUES.split(' ')` and the
checkbox branch). -/
def jsSplit (sep : Char) (s : String) : List String :=
  (jsSplitChars sep s.data).map String.mk

/-- The string-level join used by the source (`join(' ')`, and the
comma-join that template literals and the DOM value setter apply to an
array). -/
def jsJoin (sep : Char) (l : List String) : String :=
  String.mk (jsJoinChars sep (l.map String.data))

/-- Model of `Array.prototype.indexOf`: index of the first occurrence, or
`-1` when the element is absent. -/
def jsIndexOf : List String → String → Int
  | [], _ => -1
  | a :: l, v =>
    if a == v then 0
    else
      let r := jsIndexOf l v
      if r < 0 then -1 else r + 1

/-- Model of `Array.prototype.splice(i, 1)`: remove one element at index
`i`, where a negative `i` counts from the end and is clamped at `0`. -/
def jsSpliceRemoveOne (l : List String) (i : Int) : List String :=
  let s : Nat := if i < 0 then (i + l.length).toNat else i.toNat
  l.take s ++ l.drop (s + 1)

/-- Template-literal coercion of a nullable string: `null` prints as the
four-character text "null". -/
def jsTemplateOpt : Option String → String
  | none => "null"
  | some s => s

/-! ## URLSearchParams model -/

/-- A `URLSearchParams` value: the ordered list of name/value pairs. -/
abbrev Params := List (String × String)

/-- Model of `URLSearchParams.has`. -/
def spHas (ps : Params) (k : String) : Bool :=
  ps.any (fun p => p.1 == k)

/-- Model of `URLSearchParams.get`: the value of the first pair with the
given name. -/
def spGet (ps : Params) (k : String) : Option String :=
  (ps.find? (fun p => p.1 == k)).map Prod.snd

/-- Model of `URLSearchParams.delete`: remove every pair with the given
name. -/
def spDelete (ps : Params) (k : String) : Params :=
  ps.filter (fun p => !(p.1 == k))

/-- Model of `URLSearchParams.append`: add a pair at the end. -/
def spAppend (ps : Params) (k v : String) : Params :=
  ps ++ [(k, v)]

/-- Model of `URLSearchParams.set`: replace the value of the first pair
with the given name in place and drop the remaining pairs with that name,
or append when the name is absent. -/
def spSet : Params → String → String → Params
  | [], k, v => [(k, v)]
  | p :: ps, k, v => if p.1 == k then (k, v) :: spDelete ps k else p :: spSet ps k v

/-- The token sequence a name currently denotes: the stored value of the
name split on the space character, as the codec does when parsing. -/
def tokensOf (ps : Params) (k : String) : Option (List String) :=
  (spGet ps k).map (jsSplit ' ')

/-! ## DOM model -/

/-- One `option` element of a select: its value and its mutable selected
flag. -/
structure SelOpt where
  value : String
  selected : Bool
deriving DecidableEq, Repr

/-- A form control. `name` is the filter identification attribute,
`tag` the lower-cased tag name, `multiple` the multiple-selection flag of
a select, `inputType` the `type` of an input, `valueAttr` the `value`
attribute matched by attribute selectors. `valueProp`, `checked` and
`options` are the mutable state written by the synchroniser; property
writes leave the attributes unchanged. -/
structure Ctl where
  name : String
  tag : String
  multiple : Bool
  inputType : String
  valueAttr : String
  valueProp : String
  checked : Bool
  options : List SelOpt
deriving DecidableEq, Repr

/-- Translation of `Filter._checkFilterType`: selects map to
select-single or select-multiple, inputs report their type, anything else
yields `null` (here `none`). -/
def checkFilterType (c : Ctl) : Option String :=
  if c.tag == "select" then some (if c.multiple then "select-multiple" else "select-single")
  else if c.tag == "input" then some c.inputType
  else none

/-- The attribute selector `[filterAttr="k"]`. -/
def byName (k : String) (c : Ctl) : Bool := c.name == k

/-- The attribute selector `[filterAttr="k"][value="v"]`. -/
def byNameVal (k v : String) (c : Ctl) : Bool := c.name == k && c.valueAttr == v

/-- Mutation through `querySelector`: update the first control matching
the predicate, leave the rest alone. -/
def updFirst (p : Ctl → Bool) (f : Ctl → Ctl) : List Ctl → List Ctl
  | [] => []
  | c :: cs => if p c then f c :: cs else c :: updFirst p f cs

/-- The immutable skeleton of a control: the attributes the selectors and
the classifier read. Property writes (value, checked, selected) never
change it. -/
def skel (c : Ctl) : String × String × Bool × String × String × List String :=
  (c.name, c.tag, c.multiple, c.inputType, c.valueAttr, c.options.map SelOpt.value)

/-- Lift a relation on controls to optional find results. -/
def optRel (R : Ctl → Ctl → Prop) : Option Ctl → Option Ctl → Prop
  | none, none => True
  | some a, some b => R a b
  | _, _ => False

/-- Controls related when they share a skeleton and, if named `k`, are
equal: two forms related pointwise by this agree on everything a write
for name `k` can read or touch. -/
def REq (k : String) (a b : Ctl) : Prop := skel a = skel b ∧ (a.name = k → a = b)

/-- Controls related when they share a skeleton and, if not named `k`,
are equal: the second form differs from the first only at name `k`. -/
def ROnly (k : String) (a b : Ctl) : Prop := skel a = skel b ∧ (a.name ≠ k → a = b)

/-- One checkbox write step on a control: unchanged, or checked set. -/
def RChk (a b : Ctl) : Prop := b = a ∨ b = { a with checked := true }

/-! ## Parsing the query string: `_parseFiltersFromUrl` -/

/-- JavaScript object property assignment `obj[k] = v`: overwrite in place
when the key exists, append otherwise. -/
def objInsert (m : List (String × List String)) (k : String) (v : List String) :
    List (String × List String) :=
  if m.any (fun p => p.1 == k) then m.map (fun p => if p.1 == k then (k, v) else p)
  else m ++ [(k, v)]

/-- Translation of `Filter._parseFiltersFromUrl`: for each query
parameter, keep it only when a control with that name is registered
(`document.querySelector` on the filter attribute, abstracted as the
`isReg` predicate), splitting its value on spaces. Zero parameters give
the empty mapping. -/
def parseFiltersFromUrl (isReg : String → Bool) (params : Params) :
    List (String × List String) :=
  params.foldl (fun m p => if isReg p.1 then objInsert m p.1 (jsSplit ' ' p.2) else m) []

/-! ## Writing controls from the URL: `_updateFiltersFromUrl` -/

/-- The filter types sharing the direct value-assignment write branch. -/
def singleWriteTypes : List String :=
  ["select-single", "color", "range", "date", "month", "week", "time"]

/-- The checkbox write branch: for each token, set `checked` on the first
control whose name and value attribute match; when no control matches,
`querySelector` returns `null` and the property write throws a
`TypeError`, aborting the loop with the mutations made so far kept. -/
def writeCheckboxTokens (k : String) : List Ctl → List String → List Ctl × Bool
  | form, [] => (form, false)
  | form, v :: vs =>
    match form.find? (byNameVal k v) with
    | some _ =>
        writeCheckboxTokens k
          (updFirst (byNameVal k v) (fun c => { c with checked := true }) form) vs
    | none => (form, true)

/-- One iteration of the write loop of `Filter._updateFiltersFromUrl` for
the parsed entry `k` with token list `tokens`. The Boolean result records
whether the iteration threw (the radio and checkbox branches dereference
a possibly-null `querySelector` result). Assigning the token array to a
value property coerces it to a string, joining with commas; the template
literal in the radio selector does the same. -/
def writeOne (form : List Ctl) (k : String) (tokens : List String) : List Ctl × Bool :=
  match form.find? (byName k) with
  | none => (form, false)
  | some f =>
    match checkFilterType f with
    | some t =>
      if singleWriteTypes.contains t then
        (updFirst (byName k) (fun c => { c with valueProp := jsJoin ',' tokens }) form, false)
      else if t == "select-multiple" then
        (updFirst (byName k)
          (fun c => { c with options := c.options.map (fun o =>
            if 0 ≤ jsIndexOf tokens o.value then { o with selected := true } else o) })
          form, false)
      else if t == "radio" then
        match form.find? (byNameVal k (jsJoin ',' tokens)) with
        | some _ =>
            (updFirst (byNameVal k (jsJoin ',' tokens))
              (fun c => { c with checked := true }) form, false)
        | none => (form, true)
      else if t == "checkbox" then
        writeCheckboxTokens k form tokens
      else (form, false)
    | none => (form, false)

/-- The write loop over all parsed entries; a thrown iteration aborts the
remaining entries, as an exception propagates out of `forEach`. -/
def applyEntries : List (String × List String) → List Ctl → List Ctl × Bool
  | [], form => (form, false)
  | (k, ts) :: rest, form =>
    let r := writeOne form k ts
    if r.2 then r else applyEntries rest r.1

/-- Translation of `Filter._updateFiltersFromUrl` (the body of the public
`updateFilters`): parse the query parameters, return unchanged when the
result is empty, otherwise run the write loop. -/
def updateFiltersFromUrl (isReg : String → Bool) (form : List Ctl) (params : Params) :
    List Ctl × Bool :=
  let objectFilters := parseFiltersFromUrl isReg params
  if objectFilters.isEmpty then (form, false)
  else applyEntries objectFilters form

/-! ## Deriving the URL from a change event: `_updateUrlFromFilters` -/

/-- The filter types sharing the direct-value event branch (here radio is
included, unlike the write direction). -/
def eventSingleTypes : List String :=
  ["select-single", "radio", "color", "range", "date", "month", "week", "time"]

/-- The values of the currently selected options, in option order. -/
def selectedValues (c : Ctl) : List String :=
  (c.options.filter SelOpt.selected).map SelOpt.value

/-- Translation of `Filter._updateUrlFromFilters` for a change event on
control `c`, acting on the current `urlFilters`. -/
def updateUrlFromFilters (ps : Params) (c : Ctl) : Params :=
  match checkFilterType c with
  | some t =>
    if eventSingleTypes.contains t then
      if c.valueProp = "" then spDelete ps c.name
      else spSet ps c.name c.valueProp
    else if t == "select-multiple" then
      spSet ps c.name (jsJoin ' ' (selectedValues c))
    else if t == "checkbox" then
      let filterParams := jsSplit ' ' (jsTemplateOpt (spGet ps c.name))
      if spHas ps c.name then
        if c.checked then
          spSet ps c.name (jsTemplateOpt (spGet ps c.name) ++ " " ++ c.valueProp)
        else if 1 < filterParams.length then
          spSet (spDelete ps c.name) c.name
            (jsJoin ' ' (jsSpliceRemoveOne filterParams (jsIndexOf filterParams c.valueProp)))
        else spDelete ps c.name
      else spAppend ps c.name c.valueProp
    else ps
  | none => ps

/-! ## Wellformedness predicates and concrete example controls -/

/-- The FilterState invariant under scrutiny, read off the stored query
parameters: every stored value splits into nonempty tokens; in particular
no name is kept with an empty value. -/
abbrev wfParams (ps : Params) : Prop :=
  ∀ p ∈ ps, ∀ t ∈ jsSplit ' ' p.2, t ≠ ""

/-- Cleanliness of a control, from the interface contract of the spec:
the current value carries no space delimiter, a checkbox value is
nonempty, and option values are nonempty and space free. -/
abbrev cleanCtl (c : Ctl) : Prop :=
  (' ' ∉ c.valueProp.data) ∧
  (c.inputType = "checkbox" → c.valueProp ≠ "") ∧
  (∀ o ∈ c.options, ' ' ∉ o.value.data ∧ o.value ≠ "")

/-- A radio member registered under name "color" with value attribute
"red". -/
def radioRed : Ctl :=
  { name := "color", tag := "input", multiple := false, inputType := "radio",
    valueAttr := "red", valueProp := "red", checked := false, options := [] }

/-- A single-value control (a color input) named "f". -/
def colorInput : Ctl :=
  { name := "f", tag := "input", multiple := false, inputType := "color",
    valueAttr := "", valueProp := "", checked := false, options := [] }

/-- A single-value control named "q" whose current value is "v". -/
def colorV : Ctl :=
  { name := "q", tag := "input", multiple := false, inputType := "color",
    valueAttr := "", valueProp := "v", checked := false, options := [] }

/-- An unchecked checkbox named "color" with value "green". -/
def checkboxGreen : Ctl :=
  { name := "color", tag := "input", multiple := false, inputType := "checkbox",
    valueAttr := "green", valueProp := "green", checked := false, options := [] }

/-- An unchecked checkbox named "color" with value "blue". -/
def checkboxBlue : Ctl :=
  { name := "color", tag := "input", multiple := false, inputType := "checkbox",
    valueAttr := "blue", valueProp := "blue", checked := false, options := [] }

/-- An unchecked checkbox named "k" with value "z". -/
def checkboxZ : Ctl :=
  { name := "k", tag := "input", multiple := false, inputType := "checkbox",
    valueAttr := "z", valueProp := "z", checked := false, options := [] }

/-- A multiple select named "size" with one option, none selected. -/
def multiSelectNone : Ctl :=
  { name := "size", tag := "select", multiple := true, inputType := "",
    valueAttr := "", valueProp := "", checked := false,
    options := [{ value := "a", selected := false }] }

/-- A multiple select named "m" with one unselected option. -/
def multiSelectM : Ctl :=
  { name := "m", tag := "select", multiple := true, inputType := "",
    valueAttr := "", valueProp := "", checked := false,
    options := [{ value := "x", selected := false }] }

/-- A multiple select named "s" with options "a", "b", "c" of which "a"
and "c" are selected. -/
def multiSelectAC : Ctl :=
  { name := "s", tag := "select", multiple := true, inputType := "",
    valueAttr := "", valueProp := "", checked := false,
    options := [{ value := "a", selected := true }, { value := "b", selected := false },
      { value := "c", selected := true }] }

/-- A multiple select named "w" with two options, none selected yet. -/
def multiSelectW : Ctl :=
  { name := "w", tag := "select", multiple := true, inputType := "",
    valueAttr := "", valueProp := "", checked := false,
    options := [{ value := "a", selected := false }, { value := "b", selected := true }] }

/-! ## Lemmas about the string primitives -/

theorem jsSplitChars_cons (sep c : Char) (cs : List Char) :
    jsSplitChars sep (c :: cs) =
      if c = sep then [] :: jsSplitChars sep cs
      else
        match jsSplitChars sep cs with
        | [] => [[c]]
        | t :: ts => (c :: t) :: ts := rfl

theorem jsSplitChars_ne_nil (sep : Char) (l : List Char) : jsSplitChars sep l ≠ [] := by
  induction l with
  | nil => simp [jsSplitChars]
  | cons c cs ih =>
    unfold jsSplitChars
    split
    · simp
    · split <;> simp

theorem jsSplitChars_exists_cons (sep : Char) (l : List Char) :
    ∃ t ts, jsSplitChars sep l = t :: ts := by
  cases h : jsSplitChars sep l with
  | nil => exact absurd h (jsSplitChars_ne_nil sep l)
  | cons t ts => exact ⟨t, ts, rfl⟩

theorem jsSplitChars_of_not_mem (sep : Char) (l : List Char) (h : sep ∉ l) :
    jsSplitChars sep l = [l] := by
  induction l with
  | nil => rfl
  | cons c cs ih =>
    unfold jsSplitChars
    have hc : ¬ c = sep := fun hh => h (hh ▸ List.mem_cons_self c cs)
    rw [if_neg hc, ih (fun hm => h (List.mem_cons_of_mem _ hm))]

theorem jsSplitChars_append (sep : Char) (a b : List Char) :
    jsSplitChars sep (a ++ sep :: b) = jsSplitChars sep a ++ jsSplitChars sep b := by
  induction a with
  | nil => simp [jsSplitChars]
  | cons c cs ih =>
    by_cases hc : c = sep
    · subst hc
      rw [List.cons_append, jsSplitChars_cons, jsSplitChars_cons, if_pos rfl, if_pos rfl,
        ih, List.cons_append]
    · rw [List.cons_append, jsSplitChars_cons, jsSplitChars_cons, if_neg hc, if_neg hc, ih]
      obtain ⟨t, ts, ht⟩ := jsSplitChars_exists_cons sep cs
      rw [ht, List.cons_append]
      rfl

theorem not_mem_of_mem_jsSplitChars (sep : Char) (l : List Char) :
    ∀ t ∈ jsSplitChars sep l, sep ∉ t := by
  induction l with
  | nil =>
    intro t ht
    simp [jsSplitChars] at ht
    subst ht; simp
  | cons c cs ih =>
    intro t ht
    unfold jsSplitChars at ht
    by_cases hc : c = sep
    · rw [if_pos hc] at ht
      rcases List.mem_cons.mp ht with h1 | h2
      · subst h1; simp
      · exact ih t h2
    · rw [if_neg hc] at ht
      obtain ⟨u, us, hu⟩ := jsSplitChars_exists_cons sep cs
      rw [hu] at ht
      rcases List.mem_cons.mp ht with h1 | h2
      · subst h1
        intro hmem
        rcases List.mem_cons.mp hmem with h3 | h4
        · exact hc h3.symm
        · exact ih u (hu ▸ List.mem_cons_self u us) h4
      · exact ih t (hu ▸ List.mem_cons_of_mem u h2)

theorem jsSplitChars_jsJoinChars (sep : Char) (x : List Char) (xs : List (List Char))
    (h : ∀ t ∈ x :: xs, sep ∉ t) :
    jsSplitChars sep (jsJoinChars sep (x :: xs)) = x :: xs := by
  induction xs generalizing x with
  | nil =>
    show jsSplitChars sep x = [x]
    exact jsSplitChars_of_not_mem sep x (h x (List.mem_cons_self _ _))
  | cons y ys ih =>
    show jsSplitChars sep (x ++ sep :: jsJoinChars sep (y :: ys)) = x :: y :: ys
    rw [jsSplitChars_append,
      jsSplitChars_of_not_mem sep x (h x (List.mem_cons_self _ _)),
      ih y (fun t ht => h t (List.mem_cons_of_mem _ ht))]
    rfl

theorem mk_data (s : String) : String.mk s.data = s := by
  cases s; rfl

theorem data_append (s t : String) : (s ++ t).data = s.data ++ t.data := by
  cases s; cases t; rfl

theorem map_mk_data (l : List String) : l.map (fun s => String.mk s.data) = l := by
  induction l with
  | nil => rfl
  | cons a l ih => simp only [List.map_cons, mk_data, ih]

theorem jsSplit_ne_nil (sep : Char) (s : String) : jsSplit sep s ≠ [] := by
  unfold jsSplit
  intro h
  exact jsSplitChars_ne_nil sep s.data (List.map_eq_nil_iff.mp h)

theorem jsSplit_of_no_sep (sep : Char) (s : String) (h : sep ∉ s.data) :
    jsSplit sep s = [s] := by
  unfold jsSplit
  rw [jsSplitChars_of_not_mem sep s.data h]
  simp only [List.map_cons, List.map_nil, mk_data]

theorem no_sep_of_mem_jsSplit (sep : Char) (s : String) :
    ∀ t ∈ jsSplit sep s, sep ∉ t.data := by
  intro t ht
  unfold jsSplit at ht
  obtain ⟨u, hu, rfl⟩ := List.mem_map.mp ht
  exact not_mem_of_mem_jsSplitChars sep s.data u hu

theorem jsSplit_jsJoin (sep : Char) (l : List String) (hne : l ≠ [])
    (h : ∀ s ∈ l, sep ∉ s.data) : jsSplit sep (jsJoin sep l) = l := by
  cases l with
  | nil => exact absurd rfl hne
  | cons x xs =>
    show (jsSplitChars sep (String.mk (jsJoinChars sep ((x :: xs).map String.data))).data).map
        String.mk = x :: xs
    have hd : (String.mk (jsJoinChars sep ((x :: xs).map String.data))).data =
        jsJoinChars sep (x.data :: xs.map String.data) := rfl
    rw [hd, jsSplitChars_jsJoinChars sep x.data (xs.map String.data) ?hfree]
    · show String.mk x.data :: (xs.map String.data).map String.mk = x :: xs
      rw [mk_data, List.map_map]
      show x :: xs.map (fun s => String.mk s.data) = x :: xs
      rw [map_mk_data]
    · intro t ht
      rcases List.mem_cons.mp ht with h1 | h2
      · subst h1; exact h x (List.mem_cons_self _ _)
      · obtain ⟨s, hs, rfl⟩ := List.mem_map.mp h2
        exact h s (List.mem_cons_of_mem _ hs)

theorem jsSplit_space_append (s t : String) :
    jsSplit ' ' (s ++ " " ++ t) = jsSplit ' ' s ++ jsSplit ' ' t := by
  unfold jsSplit
  have h : (s ++ " " ++ t).data = s.data ++ ' ' :: t.data := by
    rw [data_append, data_append]
    show s.data ++ [' '] ++ t.data = s.data ++ ' ' :: t.data
    rw [List.append_assoc]
    rfl
  rw [h, jsSplitChars_append, List.map_append]

theorem jsIndexOf_neg_of_not_mem (l : List String) (v : String) (h : v ∉ l) :
    jsIndexOf l v = -1 := by
  induction l with
  | nil => rfl
  | cons a l ih =>
    have ha : (a == v) = false := by
      simp only [beq_eq_false_iff_ne, ne_eq]
      intro hav
      exact h (hav ▸ List.mem_cons_self a l)
    have hvl : v ∉ l := fun hm => h (List.mem_cons_of_mem _ hm)
    simp only [jsIndexOf, ha, Bool.false_eq_true, if_false, ih hvl]
    norm_num

theorem jsIndexOf_nonneg_of_mem (l : List String) (v : String) (h : v ∈ l) :
    0 ≤ jsIndexOf l v := by
  induction l with
  | nil => cases h
  | cons a l ih =>
    by_cases ha : (a == v) = true
    · simp [jsIndexOf, ha]
    · have hvl : v ∈ l := by
        rcases List.mem_cons.mp h with h1 | h2
        · exact absurd (by simp [h1]) ha
        · exact h2
      have := ih hvl
      simp only [jsIndexOf, ha, Bool.false_eq_true, if_false]
      rw [if_neg (by omega)]
      omega

theorem jsIndexOf_not_mem_of_neg (l : List String) (v : String) (h : jsIndexOf l v < 0) :
    v ∉ l := by
  intro hm
  have := jsIndexOf_nonneg_of_mem l v hm
  omega

theorem jsSpliceRemoveOne_neg_one (l : List String) (hl : l ≠ []) :
    jsSpliceRemoveOne l (-1) = l.dropLast := by
  have hlen : 1 ≤ l.length := List.length_pos.mpr hl
  simp only [jsSpliceRemoveOne]
  rw [if_pos (by omega : (-1 : Int) < 0)]
  have h1 : ((-1 : Int) + l.length).toNat = l.length - 1 := by omega
  rw [h1]
  have h2 : l.drop (l.length - 1 + 1) = [] := List.drop_eq_nil_of_le (by omega)
  rw [h2, List.append_nil, List.dropLast_eq_take]

theorem jsSpliceRemoveOne_cons_succ (x : String) (xs : List String) (n : Int) (hn : 0 ≤ n) :
    jsSpliceRemoveOne (x :: xs) (n + 1) = x :: jsSpliceRemoveOne xs n := by
  simp only [jsSpliceRemoveOne]
  rw [if_neg (by omega : ¬ (n + 1 < 0)), if_neg (by omega : ¬ (n < 0))]
  have h1 : (n + 1).toNat = n.toNat + 1 := by omega
  rw [h1]
  rfl

theorem jsSplice_at_jsIndexOf_eq_erase (l : List String) (v : String) (hv : v ∈ l) :
    jsSpliceRemoveOne l (jsIndexOf l v) = l.erase v := by
  induction l with
  | nil => cases hv
  | cons a l ih =>
    by_cases ha : (a == v) = true
    · have hd : jsIndexOf (a :: l) v = 0 := by simp [jsIndexOf, ha]
      rw [hd]
      have he : (a :: l).erase v = l := by
        have hav : a = v := by simpa using ha
        rw [hav, List.erase_cons_head]
      rw [he]
      simp [jsSpliceRemoveOne]
    · have hvl : v ∈ l := by
        rcases List.mem_cons.mp hv with h1 | h2
        · exact absurd (by simp [h1]) ha
        · exact h2
      have hnn := jsIndexOf_nonneg_of_mem l v hvl
      have hd : jsIndexOf (a :: l) v = jsIndexOf l v + 1 := by
        simp only [jsIndexOf, ha, Bool.false_eq_true, if_false]
        rw [if_neg (by omega)]
      rw [hd, jsSpliceRemoveOne_cons_succ a l _ hnn, ih hvl, List.erase_cons_tail]
      simp [ha]

theorem jsSpliceRemoveOne_subset (l : List String) (i : Int) :
    ∀ x ∈ jsSpliceRemoveOne l i, x ∈ l := by
  intro x hx
  unfold jsSpliceRemoveOne at hx
  rcases List.mem_append.mp hx with h | h
  · exact List.mem_of_mem_take h
  · exact List.mem_of_mem_drop h

theorem jsSpliceRemoveOne_length_ge (l : List String) (i : Int) :
    l.length - 1 ≤ (jsSpliceRemoveOne l i).length := by
  unfold jsSpliceRemoveOne
  rw [List.length_append, List.length_take, List.length_drop]
  omega

/-! ## Lemmas about the URLSearchParams model -/

theorem spGet_cons (p : String × String) (ps : Params) (k : String) :
    spGet (p :: ps) k = if p.1 == k then some p.2 else spGet ps k := by
  cases h : (p.1 == k) with
  | true => simp [spGet, List.find?, h]
  | false => simp [spGet, List.find?, h]

theorem spDelete_cons (p : String × String) (ps : Params) (k : String) :
    spDelete (p :: ps) k = if p.1 == k then spDelete ps k else p :: spDelete ps k := by
  cases h : (p.1 == k) with
  | true => simp [spDelete, List.filter, h]
  | false => simp [spDelete, List.filter, h]

theorem spGet_spDelete_self (ps : Params) (k : String) :
    spGet (spDelete ps k) k = none := by
  induction ps with
  | nil => rfl
  | cons p ps ih =>
    rw [spDelete_cons]
    by_cases h : (p.1 == k) = true
    · rw [if_pos h]; exact ih
    · rw [if_neg h, spGet_cons, if_neg h]; exact ih

theorem spGet_spDelete_ne (ps : Params) (k q : String) (h : q ≠ k) :
    spGet (spDelete ps k) q = spGet ps q := by
  induction ps with
  | nil => rfl
  | cons p ps ih =>
    rw [spDelete_cons, spGet_cons]
    by_cases hk : (p.1 == k) = true
    · have hq : (p.1 == q) = false := by
        simp only [beq_iff_eq] at hk
        simp [hk, Ne.symm h]
      rw [if_pos hk, if_neg (by simp [hq])]
      exact ih
    · rw [if_neg hk, spGet_cons]
      by_cases hq : (p.1 == q) = true
      · rw [if_pos hq, if_pos hq]
      · rw [if_neg hq, if_neg hq]
        exact ih

theorem not_mem_spDelete (ps : Params) (k v : String) : (k, v) ∉ spDelete ps k := by
  intro h
  have := List.of_mem_filter h
  simp at this

theorem mem_of_mem_spDelete (ps : Params) (k : String) :
    ∀ q ∈ spDelete ps k, q ∈ ps := fun _ h => List.mem_of_mem_filter h

theorem spGet_spSet_self (ps : Params) (k v : String) :
    spGet (spSet ps k v) k = some v := by
  induction ps with
  | nil => simp [spSet, spGet_cons]
  | cons p ps ih =>
    unfold spSet
    by_cases h : (p.1 == k) = true
    · rw [if_pos h, spGet_cons]
      simp
    · rw [if_neg h, spGet_cons, if_neg h]
      exact ih

theorem spGet_spSet_ne (ps : Params) (k v q : String) (h : q ≠ k) :
    spGet (spSet ps k v) q = spGet ps q := by
  induction ps with
  | nil =>
    show spGet [(k, v)] q = spGet [] q
    rw [spGet_cons, if_neg (by simp [Ne.symm h])]
  | cons p ps ih =>
    unfold spSet
    by_cases hk : (p.1 == k) = true
    · rw [if_pos hk, spGet_cons, spGet_cons]
      have hq : (k == q) = false := by simp [Ne.symm h]
      rw [if_neg (by simp [hq])]
      have hpq : (p.1 == q) = false := by
        simp only [beq_iff_eq] at hk
        simp [hk, Ne.symm h]
      rw [if_neg (by simp [hpq])]
      exact spGet_spDelete_ne ps k q h
    · rw [if_neg hk, spGet_cons, spGet_cons]
      by_cases hq : (p.1 == q) = true
      · rw [if_pos hq, if_pos hq]
      · rw [if_neg hq, if_neg hq]
        exact ih

theorem mem_spSet (ps : Params) (k v : String) :
    ∀ q ∈ spSet ps k v, q = (k, v) ∨ q ∈ ps := by
  induction ps with
  | nil =>
    intro q hq
    simp only [spSet] at hq
    left
    simpa using hq
  | cons p ps ih =>
    intro q hq
    unfold spSet at hq
    by_cases h : (p.1 == k) = true
    · rw [if_pos h] at hq
      rcases List.mem_cons.mp hq with h1 | h2
      · left; exact h1
      · right; exact List.mem_cons_of_mem _ (mem_of_mem_spDelete ps k q h2)
    · rw [if_neg h] at hq
      rcases List.mem_cons.mp hq with h1 | h2
      · right; exact h1 ▸ List.mem_cons_self _ _
      · rcases ih q h2 with h3 | h4
        · left; exact h3
        · right; exact List.mem_cons_of_mem _ h4

theorem mem_of_spGet (ps : Params) (k s : String) (h : spGet ps k = some s) :
    (k, s) ∈ ps := by
  induction ps with
  | nil => cases h
  | cons p ps ih =>
    rw [spGet_cons] at h
    by_cases hk : (p.1 == k) = true
    · rw [if_pos hk] at h
      have h2 : p.2 = s := Option.some.inj h
      have h1 : p.1 = k := by simpa using hk
      have hp : (k, s) = p := by rw [← h1, ← h2]
      rw [hp]
      exact List.mem_cons_self _ _
    · rw [if_neg hk] at h
      exact List.mem_cons_of_mem _ (ih h)

theorem spHas_of_spGet (ps : Params) (k s : String) (h : spGet ps k = some s) :
    spHas ps k = true := by
  unfold spHas
  rw [List.any_eq_true]
  exact ⟨(k, s), mem_of_spGet ps k s h, by simp⟩

theorem spGet_spAppend_of_none (ps : Params) (k v : String) (h : spGet ps k = none) :
    spGet (spAppend ps k v) k = some v := by
  induction ps with
  | nil => simp [spAppend, spGet_cons]
  | cons p ps ih =>
    rw [spGet_cons] at h
    by_cases hk : (p.1 == k) = true
    · rw [if_pos hk] at h
      cases h
    · rw [if_neg hk] at h
      show spGet (p :: spAppend ps k v) k = some v
      rw [spGet_cons, if_neg hk]
      exact ih h

theorem jsJoin_single (sep : Char) (v : String) : jsJoin sep [v] = v := by
  show String.mk (jsJoinChars sep [v.data]) = v
  exact mk_data v

theorem spGet_isSome_of_spHas (ps : Params) (k : String) (h : spHas ps k = true) :
    ∃ s, spGet ps k = some s := by
  induction ps with
  | nil => cases h
  | cons p ps ih =>
    rw [spGet_cons]
    by_cases hk : (p.1 == k) = true
    · exact ⟨p.2, by rw [if_pos hk]⟩
    · rw [if_neg hk]
      apply ih
      unfold spHas at h ⊢
      simpa only [List.any_cons, hk, Bool.false_or] using h

theorem spGet_none_of_not_spHas (ps : Params) (k : String) (h : spHas ps k = false) :
    spGet ps k = none := by
  induction ps with
  | nil => rfl
  | cons p ps ih =>
    unfold spHas at h
    rw [List.any_cons] at h
    rcases Bool.or_eq_false_iff.mp h with ⟨h1, h2⟩
    rw [spGet_cons, if_neg (by simp [h1])]
    exact ih h2

theorem mem_objInsert (m : List (String × List String)) (k : String) (v : List String) :
    ∀ q ∈ objInsert m k v, q = (k, v) ∨ q ∈ m := by
  intro q hq
  unfold objInsert at hq
  by_cases h : m.any (fun p => p.1 == k) = true
  · rw [if_pos h] at hq
    obtain ⟨p, hp, hpq⟩ := List.mem_map.mp hq
    by_cases hpk : (p.1 == k) = true
    · rw [if_pos hpk] at hpq
      left; exact hpq.symm
    · rw [if_neg hpk] at hpq
      right; exact hpq ▸ hp
  · rw [if_neg h] at hq
    rcases List.mem_append.mp hq with h1 | h2
    · right; exact h1
    · left; simpa using h2

theorem parse_foldl_inv (isReg : String → Bool) :
    ∀ (params : Params) (acc : List (String × List String)),
      (∀ q ∈ acc, isReg q.1 = true ∧ ∃ s, q.2 = jsSplit ' ' s) →
      ∀ q ∈ params.foldl
          (fun m p => if isReg p.1 then objInsert m p.1 (jsSplit ' ' p.2) else m) acc,
        isReg q.1 = true ∧ ∃ s, q.2 = jsSplit ' ' s := by
  intro params
  induction params with
  | nil => intro acc hacc q hq; exact hacc q hq
  | cons p ps ih =>
    intro acc hacc q hq
    rw [List.foldl_cons] at hq
    by_cases h : isReg p.1 = true
    · rw [if_pos h] at hq
      refine ih _ ?_ q hq
      intro r hr
      rcases mem_objInsert acc p.1 (jsSplit ' ' p.2) r hr with h1 | h2
      · subst h1; exact ⟨h, p.2, rfl⟩
      · exact hacc r h2
    · rw [if_neg h] at hq
      exact ih _ hacc q hq

theorem parse_mem_inv (isReg : String → Bool) (params : Params) :
    ∀ q ∈ parseFiltersFromUrl isReg params,
      isReg q.1 = true ∧ ∃ s, q.2 = jsSplit ' ' s :=
  parse_foldl_inv isReg params [] (by intro q hq; cases hq)

/-! ## Branch equations for the event direction -/

theorem updateUrl_eventSingle (ps : Params) (c : Ctl) (t : String)
    (hft : checkFilterType c = some t) (hsingle : eventSingleTypes.contains t = true) :
    updateUrlFromFilters ps c =
      if c.valueProp = "" then spDelete ps c.name else spSet ps c.name c.valueProp := by
  unfold updateUrlFromFilters
  rw [hft]
  simp only [hsingle, if_true]

theorem updateUrl_multi (ps : Params) (c : Ctl)
    (hft : checkFilterType c = some "select-multiple") :
    updateUrlFromFilters ps c = spSet ps c.name (jsJoin ' ' (selectedValues c)) := by
  unfold updateUrlFromFilters
  rw [hft]
  have h1 : eventSingleTypes.contains "select-multiple" = false := by decide
  have h2 : ("select-multiple" == "select-multiple") = true := by decide
  simp only [h1, h2, Bool.false_eq_true, if_false, if_true]

theorem updateUrl_checkbox (ps : Params) (c : Ctl)
    (hft : checkFilterType c = some "checkbox") :
    updateUrlFromFilters ps c =
      if spHas ps c.name then
        if c.checked then
          spSet ps c.name (jsTemplateOpt (spGet ps c.name) ++ " " ++ c.valueProp)
        else if 1 < (jsSplit ' ' (jsTemplateOpt (spGet ps c.name))).length then
          spSet (spDelete ps c.name) c.name
            (jsJoin ' ' (jsSpliceRemoveOne (jsSplit ' ' (jsTemplateOpt (spGet ps c.name)))
              (jsIndexOf (jsSplit ' ' (jsTemplateOpt (spGet ps c.name))) c.valueProp)))
        else spDelete ps c.name
      else spAppend ps c.name c.valueProp := by
  unfold updateUrlFromFilters
  rw [hft]
  have h1 : eventSingleTypes.contains "checkbox" = false := by decide
  have h2 : ("checkbox" == "select-multiple") = false := by decide
  have h3 : ("checkbox" == "checkbox") = true := by decide
  simp only [h1, h2, h3, Bool.false_eq_true, if_false, if_true]

/-! ## Claim C5 -/

/-- C5: parse omits every query parameter whose name is not registered;
with no registered name the result is empty; and with zero query
parameters the result is the empty mapping. -/
theorem C5_parse_unregistered_dropped (isReg : String → Bool) (params : Params) :
    (∀ k, isReg k = false → ∀ ts, (k, ts) ∉ parseFiltersFromUrl isReg params) ∧
    ((∀ k, isReg k = false) → parseFiltersFromUrl isReg params = []) ∧
    parseFiltersFromUrl isReg [] = [] := by
  refine ⟨?_, ?_, rfl⟩
  · intro k hk ts hmem
    have := (parse_mem_inv isReg params (k, ts) hmem).1
    rw [hk] at this
    cases this
  · intro hall
    rw [List.eq_nil_iff_forall_not_mem]
    intro q hq
    have := (parse_mem_inv isReg params q hq).1
    rw [hall q.1] at this
    cases this

/-- C5 witness: the spec example, a parameter named "unknownFilter" with
no registered names, is dropped. -/
theorem C5_witness :
    ("unknownFilter", ["a", "b"]) ∉
      parseFiltersFromUrl (fun _ => false) [("unknownFilter", "a b")] :=
  (C5_parse_unregistered_dropped (fun _ => false) [("unknownFilter", "a b")]).1
    "unknownFilter" rfl ["a", "b"]

/-! ## Claim C7 -/

/-- C7: on a change event of a single-value or exclusive-group control,
an empty current value removes the entry for the name entirely, and a
nonempty current value stores exactly that value, whose token sequence is
the single current value when the value is free of the delimiter. -/
theorem C7_direct_value_update (ps : Params) (c : Ctl) (t : String)
    (hft : checkFilterType c = some t) (hsingle : eventSingleTypes.contains t = true) :
    (c.valueProp = "" →
      spGet (updateUrlFromFilters ps c) c.name = none ∧
      ∀ v, (c.name, v) ∉ updateUrlFromFilters ps c) ∧
    (c.valueProp ≠ "" →
      spGet (updateUrlFromFilters ps c) c.name = some c.valueProp ∧
      (' ' ∉ c.valueProp.data →
        tokensOf (updateUrlFromFilters ps c) c.name = some [c.valueProp])) := by
  rw [updateUrl_eventSingle ps c t hft hsingle]
  constructor
  · intro hv
    rw [if_pos hv]
    exact ⟨spGet_spDelete_self ps c.name, fun v => not_mem_spDelete ps c.name v⟩
  · intro hv
    rw [if_neg hv]
    refine ⟨spGet_spSet_self ps c.name c.valueProp, ?_⟩
    intro hns
    unfold tokensOf
    rw [spGet_spSet_self ps c.name c.valueProp]
    show some (jsSplit ' ' c.valueProp) = some [c.valueProp]
    rw [jsSplit_of_no_sep ' ' c.valueProp hns]

/-- C7 witness: a color input named "q" with current value "v" replaces
its stored entry by the single token "v". -/
theorem C7_witness :
    "v" ≠ "" ∧ ' ' ∉ "v".data ∧
    tokensOf (updateUrlFromFilters [("q", "old")] colorV) "q" = some ["v"] := by
  refine ⟨by decide, by decide, ?_⟩
  exact ((C7_direct_value_update [("q", "old")] colorV "color" (by decide)
    (by decide)).2 (by decide)).2 (by decide)

/-! ## Claim C2 -/

/-- C2: the claim says a radio write with no matching group member is a
silent no-op that never raises a fatal error. The code instead calls
`.checked = true` on the `null` result of `querySelector` and throws a
`TypeError`; evaluated at the failing input, the write reports the thrown
error. The spec states the intended behaviour (no exception anywhere in
the core, analogous to the guarded name-level lookup), so this is a code
bug. -/
theorem C2_radio_write_raises :
    writeOne [radioRed] "color" ["green"] = ([radioRed], true) := by decide

/-! ## Claim C3 -/

/-- C3 counterexample: the claim says a single-value write applies only
the first token. The code assigns the token array to the value property,
which coerces to the comma-join of all tokens: tokens ["a", "b"] store
the value "a,b", not the first token "a". -/
theorem C3_counterexample :
    (writeOne [colorInput] "f" ["a", "b"]).1 = [{ colorInput with valueProp := "a,b" }] ∧
    "a,b" ≠ "a" := by decide

theorem updFirst_find_self (p : Ctl → Bool) (f : Ctl → Ctl) (l : List Ctl)
    (hp : ∀ c, p (f c) = p c) :
    (updFirst p f l).find? p = (l.find? p).map f := by
  induction l with
  | nil => rfl
  | cons c cs ih =>
    cases h : p c with
    | true => simp [updFirst, List.find?, h, hp c]
    | false =>
      simp only [updFirst, h, Bool.false_eq_true, if_false, List.find?, ih]

theorem writeOne_single (form : List Ctl) (k : String) (ts : List String) (c : Ctl) (t : String)
    (hfind : form.find? (byName k) = some c) (hft : checkFilterType c = some t)
    (hsingle : singleWriteTypes.contains t = true) :
    writeOne form k ts =
      (updFirst (byName k) (fun d => { d with valueProp := jsJoin ',' ts }) form, false) := by
  unfold writeOne
  rw [hfind]
  simp only [hft, hsingle, if_true]

/-- C3 amended: a single-value write stores the comma-join of the token
sequence as the value of the first control registered under the name (the
coercion of the token array to a string); when the sequence has exactly
one token this is that token. -/
theorem C3_amended (form : List Ctl) (k : String) (ts : List String) (c : Ctl) (t : String)
    (hfind : form.find? (byName k) = some c) (hft : checkFilterType c = some t)
    (hsingle : singleWriteTypes.contains t = true) :
    (writeOne form k ts).2 = false ∧
    (writeOne form k ts).1.find? (byName k) = some { c with valueProp := jsJoin ',' ts } ∧
    (∀ v, ts = [v] →
      (writeOne form k ts).1.find? (byName k) = some { c with valueProp := v }) := by
  rw [writeOne_single form k ts c t hfind hft hsingle]
  have hfind2 : (updFirst (byName k) (fun d => { d with valueProp := jsJoin ',' ts })
      form).find? (byName k) = some { c with valueProp := jsJoin ',' ts } := by
    rw [updFirst_find_self (byName k) (fun d => { d with valueProp := jsJoin ',' ts }) form
      (fun d => rfl), hfind]
    rfl
  refine ⟨rfl, hfind2, ?_⟩
  intro v hv
  subst hv
  rw [hfind2, jsJoin_single]

/-- C3 amended witness: writing the single token "a" to the color input
sets its value to "a". -/
theorem C3_witness :
    (writeOne [colorInput] "f" ["a"]).1.find? (byName "f") =
      some { colorInput with valueProp := "a" } := by
  have h := (C3_amended [colorInput] "f" ["a"] colorInput "color" (by decide) (by decide)
    (by decide)).2.2 "a" rfl
  exact h

/-! ## Claim C10 -/

/-- C10: an uncheck event on a checkbox whose value does not occur among
the stored tokens of its name (with more than one token stored) removes
the last stored token: `indexOf` yields -1 and `splice(-1, 1)` deletes
the final element, so the entry loses a value the user never unchecked. -/
theorem C10_uncheck_missing_drops_last (ps : Params) (c : Ctl) (s : String)
    (hft : checkFilterType c = some "checkbox") (hchk : c.checked = false)
    (hget : spGet ps c.name = some s)
    (hlen : 1 < (jsSplit ' ' s).length)
    (hmem : c.valueProp ∉ jsSplit ' ' s) :
    tokensOf (updateUrlFromFilters ps c) c.name = some ((jsSplit ' ' s).dropLast) := by
  rw [updateUrl_checkbox ps c hft]
  rw [if_pos (spHas_of_spGet ps c.name s hget)]
  rw [if_neg (by simp [hchk])]
  have hjt : jsTemplateOpt (spGet ps c.name) = s := by rw [hget]; rfl
  rw [hjt, if_pos hlen, jsIndexOf_neg_of_not_mem (jsSplit ' ' s) c.valueProp hmem,
    jsSpliceRemoveOne_neg_one (jsSplit ' ' s) (jsSplit_ne_nil ' ' s)]
  unfold tokensOf
  rw [spGet_spSet_self]
  show some (jsSplit ' ' (jsJoin ' ' ((jsSplit ' ' s).dropLast))) =
    some ((jsSplit ' ' s).dropLast)
  rw [jsSplit_jsJoin ' ' ((jsSplit ' ' s).dropLast) ?hne ?hfree]
  case hne =>
    intro he
    have hld := List.length_dropLast (jsSplit ' ' s)
    rw [he] at hld
    simp at hld
    omega
  case hfree =>
    intro x hx
    rw [List.dropLast_eq_take] at hx
    exact no_sep_of_mem_jsSplit ' ' s x (List.mem_of_mem_take hx)

/-- C10 witness: tokens "x y" stored under "k", unchecking a checkbox
with value "z" leaves "x" alone, silently dropping "y". -/
theorem C10_witness :
    tokensOf (updateUrlFromFilters [("k", "x y")] checkboxZ) "k" = some ["x"] := by
  have h := C10_uncheck_missing_drops_last [("k", "x y")] checkboxZ "x y" (by decide) rfl
    (by decide) (by decide) (by decide)
  rw [show (jsSplit ' ' "x y").dropLast = ["x"] from by decide] at h
  exact h

/-! ## Claim C4 -/

/-- C4 counterexample: the claim says an uncheck event removes exactly
the unchecked value and keeps the remaining tokens. With stored tokens
["red", "blue"] and an uncheck of "green" the claim predicts tokens
["red", "blue"], but the code yields ["red"]: it dropped "blue", a value
the user never unchecked. -/
theorem C4_counterexample :
    tokensOf (updateUrlFromFilters [("color", "red blue")] checkboxGreen) "color" =
      some ["red"] ∧
    some ["red"] ≠ some ["red", "blue"] := by decide

/-- C4 amended: for an uncheck event on a name with an existing entry,
when the entry has more than one token and the unchecked value occurs in
it, exactly the first occurrence of that value is removed and the
remaining tokens are kept in order; when the entry has exactly one token
the entire entry is removed. (The amendment adds the occurrence
condition; when the value does not occur the code removes the last token
instead, see the counterexample.) -/
theorem C4_amended (ps : Params) (c : Ctl) (s : String)
    (hft : checkFilterType c = some "checkbox") (hchk : c.checked = false)
    (hget : spGet ps c.name = some s) :
    (1 < (jsSplit ' ' s).length → c.valueProp ∈ jsSplit ' ' s →
      tokensOf (updateUrlFromFilters ps c) c.name =
        some ((jsSplit ' ' s).erase c.valueProp)) ∧
    ((jsSplit ' ' s).length = 1 →
      spGet (updateUrlFromFilters ps c) c.name = none ∧
      ∀ v, (c.name, v) ∉ updateUrlFromFilters ps c) := by
  rw [updateUrl_checkbox ps c hft]
  rw [if_pos (spHas_of_spGet ps c.name s hget)]
  rw [if_neg (by simp [hchk])]
  have hjt : jsTemplateOpt (spGet ps c.name) = s := by rw [hget]; rfl
  rw [hjt]
  constructor
  · intro hlen hmem
    rw [if_pos hlen, jsSplice_at_jsIndexOf_eq_erase (jsSplit ' ' s) c.valueProp hmem]
    unfold tokensOf
    rw [spGet_spSet_self]
    show some (jsSplit ' ' (jsJoin ' ' ((jsSplit ' ' s).erase c.valueProp))) =
      some ((jsSplit ' ' s).erase c.valueProp)
    rw [jsSplit_jsJoin ' ' ((jsSplit ' ' s).erase c.valueProp) ?hne ?hfree]
    case hne =>
      intro he
      have hle := List.length_erase_of_mem hmem
      rw [he] at hle
      simp at hle
      omega
    case hfree =>
      intro x hx
      exact no_sep_of_mem_jsSplit ' ' s x (List.mem_of_mem_erase hx)
  · intro hlen
    rw [if_neg (by omega)]
    exact ⟨spGet_spDelete_self ps c.name, fun v => not_mem_spDelete ps c.name v⟩

/-- C4 amended witness: the spec example, tokens ["red", "blue"] under
"color" and an uncheck of "blue", yields tokens ["red"]. -/
theorem C4_witness :
    tokensOf (updateUrlFromFilters [("color", "red blue")] checkboxBlue) "color" =
      some ["red"] := by
  have h := (C4_amended [("color", "red blue")] checkboxBlue "red blue" (by decide) rfl
    (by decide)).1 (by decide) (by decide)
  have hv : checkboxBlue.valueProp = "blue" := rfl
  rw [hv, show (jsSplit ' ' "red blue").erase "blue" = ["red"] from by decide] at h
  exact h

/-! ## Claim C6 -/

/-- C6 counterexample: the claim says a multi-select change replaces the
tokens of the name by exactly the selected option values. With zero
selected options the claim predicts the empty token list, but the code
stores the name with the empty value, whose token sequence is the single
empty token. -/
theorem C6_counterexample :
    selectedValues multiSelectNone = [] ∧
    tokensOf (updateUrlFromFilters [] multiSelectNone) "size" = some [""] ∧
    ([""] : List String) ≠ [] := by decide

/-- C6 amended: a multi-select change event with at least one selected
option (values space free) stores exactly the selected values in option
order, unconditionally replacing any prior tokens of the name; with zero
selected options the name is stored with the empty value instead of the
selected-values list. -/
theorem C6_amended (ps : Params) (c : Ctl)
    (hft : checkFilterType c = some "select-multiple")
    (hclean : ∀ o ∈ c.options, ' ' ∉ o.value.data) :
    (selectedValues c ≠ [] →
      tokensOf (updateUrlFromFilters ps c) c.name = some (selectedValues c)) ∧
    (selectedValues c = [] →
      spGet (updateUrlFromFilters ps c) c.name = some "") := by
  rw [updateUrl_multi ps c hft]
  constructor
  · intro hne
    unfold tokensOf
    rw [spGet_spSet_self]
    show some (jsSplit ' ' (jsJoin ' ' (selectedValues c))) = some (selectedValues c)
    rw [jsSplit_jsJoin ' ' (selectedValues c) hne ?hfree]
    case hfree =>
      intro v hv
      obtain ⟨o, ho, rfl⟩ := List.mem_map.mp hv
      exact hclean o (List.mem_of_mem_filter ho)
  · intro hemp
    rw [hemp]
    have hj : jsJoin ' ' ([] : List String) = "" := rfl
    rw [hj]
    exact spGet_spSet_self ps c.name ""

/-- C6 amended witness: options {"a", "c"} selected out of {"a", "b",
"c"} store exactly ["a", "c"] over a prior entry. -/
theorem C6_witness :
    tokensOf (updateUrlFromFilters [("s", "zzz")] multiSelectAC) "s" = some ["a", "c"] := by
  have h := (C6_amended [("s", "zzz")] multiSelectAC (by decide) (by decide)).1 (by decide)
  rw [show selectedValues multiSelectAC = ["a", "c"] from by decide] at h
  exact h

/-! ## Claim C1 -/

/-- C1 counterexample: a multi-select change event with zero selected
options keeps the name in the mapping with an empty value (a single
empty token) instead of removing it, violating the stated invariant that
a name whose token sequence becomes empty is removed entirely. -/
theorem C1_counterexample :
    selectedValues multiSelectM = [] ∧
    spGet (updateUrlFromFilters [] multiSelectM) "m" = some "" ∧
    tokensOf (updateUrlFromFilters [] multiSelectM) "m" = some [""] := by decide

theorem wfParams_spDelete (ps : Params) (k : String) (h : wfParams ps) :
    wfParams (spDelete ps k) :=
  fun p hp => h p (mem_of_mem_spDelete ps k p hp)

theorem wfParams_spSet (ps : Params) (k v : String) (h : wfParams ps)
    (hv : ∀ t ∈ jsSplit ' ' v, t ≠ "") : wfParams (spSet ps k v) := by
  intro p hp
  rcases mem_spSet ps k v p hp with h1 | h2
  · subst h1; exact hv
  · exact h p h2

theorem wfParams_spAppend (ps : Params) (k v : String) (h : wfParams ps)
    (hv : ∀ t ∈ jsSplit ' ' v, t ≠ "") : wfParams (spAppend ps k v) := by
  intro p hp
  rcases List.mem_append.mp hp with h1 | h2
  · exact h p h1
  · have hpv : p = (k, v) := by simpa using h2
    subst hpv
    exact hv

theorem inputType_of_checkbox (c : Ctl) (h : checkFilterType c = some "checkbox") :
    c.inputType = "checkbox" := by
  unfold checkFilterType at h
  by_cases h1 : (c.tag == "select") = true
  · rw [if_pos h1] at h
    have h2 := Option.some.inj h
    by_cases hm : c.multiple = true
    · rw [if_pos hm] at h2
      exact absurd h2 (by decide)
    · rw [if_neg hm] at h2
      exact absurd h2 (by decide)
  · rw [if_neg h1] at h
    by_cases h2 : (c.tag == "input") = true
    · rw [if_pos h2] at h
      exact Option.some.inj h
    · rw [if_neg h2] at h
      cases h

theorem updateUrl_default (ps : Params) (c : Ctl) (t : String)
    (hft : checkFilterType c = some t)
    (h1 : eventSingleTypes.contains t = false) (h2 : (t == "select-multiple") = false)
    (h3 : (t == "checkbox") = false) : updateUrlFromFilters ps c = ps := by
  unfold updateUrlFromFilters
  rw [hft]
  simp only [h1, h2, h3, Bool.false_eq_true, if_false]

theorem wfParams_update (ps : Params) (c : Ctl) (hwf : wfParams ps) (hc : cleanCtl c)
    (hms : ¬ (checkFilterType c = some "select-multiple" ∧ selectedValues c = [])) :
    wfParams (updateUrlFromFilters ps c) := by
  obtain ⟨hv, hcb, hopts⟩ := hc
  cases hft : checkFilterType c with
  | none =>
    unfold updateUrlFromFilters
    rw [hft]
    exact hwf
  | some t =>
    by_cases hsingle : eventSingleTypes.contains t = true
    · rw [updateUrl_eventSingle ps c t hft hsingle]
      by_cases hvp : c.valueProp = ""
      · rw [if_pos hvp]
        exact wfParams_spDelete ps c.name hwf
      · rw [if_neg hvp]
        apply wfParams_spSet ps c.name c.valueProp hwf
        rw [jsSplit_of_no_sep ' ' c.valueProp hv]
        intro t2 ht2
        rw [List.mem_singleton.mp ht2]
        exact hvp
    · by_cases hmulti : (t == "select-multiple") = true
      · have ht : t = "select-multiple" := by simpa using hmulti
        subst ht
        rw [updateUrl_multi ps c hft]
        have hsel : selectedValues c ≠ [] := fun he => hms ⟨hft, he⟩
        apply wfParams_spSet ps c.name _ hwf
        rw [jsSplit_jsJoin ' ' (selectedValues c) hsel ?hfree]
        case hfree =>
          intro v hvmem
          obtain ⟨o, ho, rfl⟩ := List.mem_map.mp hvmem
          exact (hopts o (List.mem_of_mem_filter ho)).1
        intro v hvmem
        obtain ⟨o, ho, rfl⟩ := List.mem_map.mp hvmem
        exact (hopts o (List.mem_of_mem_filter ho)).2
      · by_cases hcbx : (t == "checkbox") = true
        · have ht : t = "checkbox" := by simpa using hcbx
          subst ht
          have hvne : c.valueProp ≠ "" := hcb (inputType_of_checkbox c hft)
          rw [updateUrl_checkbox ps c hft]
          by_cases hhas : spHas ps c.name = true
          · rw [if_pos hhas]
            obtain ⟨s, hs⟩ := spGet_isSome_of_spHas ps c.name hhas
            have hjt : jsTemplateOpt (spGet ps c.name) = s := by rw [hs]; rfl
            have hswf : ∀ t2 ∈ jsSplit ' ' s, t2 ≠ "" :=
              hwf (c.name, s) (mem_of_spGet ps c.name s hs)
            by_cases hchk : c.checked = true
            · rw [if_pos hchk, hjt]
              apply wfParams_spSet ps c.name _ hwf
              rw [jsSplit_space_append]
              intro t2 ht2
              rcases List.mem_append.mp ht2 with h1 | h2
              · exact hswf t2 h1
              · rw [jsSplit_of_no_sep ' ' c.valueProp hv] at h2
                rw [List.mem_singleton.mp h2]
                exact hvne
            · rw [if_neg hchk, hjt]
              by_cases hlen : 1 < (jsSplit ' ' s).length
              · rw [if_pos hlen]
                have hne2 : jsSpliceRemoveOne (jsSplit ' ' s)
                    (jsIndexOf (jsSplit ' ' s) c.valueProp) ≠ [] := by
                  intro he
                  have hge := jsSpliceRemoveOne_length_ge (jsSplit ' ' s)
                    (jsIndexOf (jsSplit ' ' s) c.valueProp)
                  rw [he] at hge
                  simp at hge
                  omega
                apply wfParams_spSet (spDelete ps c.name) c.name _
                  (wfParams_spDelete ps c.name hwf)
                rw [jsSplit_jsJoin ' ' _ hne2 ?hfree2]
                case hfree2 =>
                  intro t2 ht2
                  exact no_sep_of_mem_jsSplit ' ' s t2
                    (jsSpliceRemoveOne_subset _ _ t2 ht2)
                intro t2 ht2
                exact hswf t2 (jsSpliceRemoveOne_subset _ _ t2 ht2)
              · rw [if_neg hlen]
                exact wfParams_spDelete ps c.name hwf
          · rw [if_neg hhas]
            have hget : spGet ps c.name = none :=
              spGet_none_of_not_spHas ps c.name (Bool.not_eq_true _ ▸ hhas)
            apply wfParams_spAppend ps c.name c.valueProp hwf
            rw [jsSplit_of_no_sep ' ' c.valueProp hv]
            intro t2 ht2
            rw [List.mem_singleton.mp ht2]
            exact hvne
        · rw [updateUrl_default ps c t hft
            (Bool.not_eq_true _ ▸ hsingle) (Bool.not_eq_true _ ▸ hmulti)
            (Bool.not_eq_true _ ▸ hcbx)]
          exact hwf

theorem wfParams_foldl (cs : List Ctl) :
    ∀ ps : Params, wfParams ps →
      (∀ c ∈ cs, cleanCtl c ∧
        ¬ (checkFilterType c = some "select-multiple" ∧ selectedValues c = [])) →
      wfParams (cs.foldl updateUrlFromFilters ps) := by
  induction cs with
  | nil =>
    intro ps h _
    exact h
  | cons c cs ih =>
    intro ps h hall
    rw [List.foldl_cons]
    exact ih (updateUrlFromFilters ps c)
      (wfParams_update ps c h (hall c (List.mem_cons_self _ _)).1
        (hall c (List.mem_cons_self _ _)).2)
      (fun d hd => hall d (List.mem_cons_of_mem _ hd))

/-- C1 amended: every FilterState produced by parse maps each name to at
least one token (split never returns an empty list), and along any
sequence of change events on clean controls the stored mapping keeps
every name bound to nonempty tokens and never keeps a name with an empty
value, except that a multi-select change with zero selected options
stores the name with an empty value (see the counterexample), so such
events are excluded. -/
theorem C1_amended :
    (∀ (isReg : String → Bool) (params : Params) (q : String × List String),
      q ∈ parseFiltersFromUrl isReg params → q.2 ≠ []) ∧
    (∀ (cs : List Ctl) (ps : Params), wfParams ps →
      (∀ c ∈ cs, cleanCtl c ∧
        ¬ (checkFilterType c = some "select-multiple" ∧ selectedValues c = [])) →
      wfParams (cs.foldl updateUrlFromFilters ps)) := by
  constructor
  · intro isReg params q hq
    obtain ⟨_, s, hs⟩ := parse_mem_inv isReg params q hq
    rw [hs]
    exact jsSplit_ne_nil ' ' s
  · intro cs ps h hall
    exact wfParams_foldl cs ps h hall

/-- C1 amended witness: a change on a single-value control followed by a
check event keeps the mapping free of empty values. -/
theorem C1_witness :
    (∀ c ∈ [colorV, checkboxGreen], cleanCtl c ∧
      ¬ (checkFilterType c = some "select-multiple" ∧ selectedValues c = [])) ∧
    wfParams (List.foldl updateUrlFromFilters [("q", "old")] [colorV, checkboxGreen]) :=
  ⟨by decide, C1_amended.2 [colorV, checkboxGreen] [("q", "old")] (by decide) (by decide)⟩

/-! ## Claim C8 -/

theorem writeOne_multi_eq (form : List Ctl) (k : String) (ts : List String) (c : Ctl)
    (hfind : form.find? (byName k) = some c)
    (hft : checkFilterType c = some "select-multiple") :
    writeOne form k ts =
      (updFirst (byName k) (fun d => { d with options := d.options.map (fun o =>
        if 0 ≤ jsIndexOf ts o.value then { o with selected := true } else o) }) form,
        false) := by
  unfold writeOne
  rw [hfind]
  have h1 : singleWriteTypes.contains "select-multiple" = false := by decide
  have h2 : ("select-multiple" == "select-multiple") = true := by decide
  simp only [hft, h1, h2, Bool.false_eq_true, if_false, if_true]

/-- C8: a multi-select write marks selected every option whose value is
among the tokens and leaves every other option exactly as it was (it is
never explicitly deselected), and it never throws. -/
theorem C8_multi_select_write (form : List Ctl) (k : String) (ts : List String) (c : Ctl)
    (hfind : form.find? (byName k) = some c)
    (hft : checkFilterType c = some "select-multiple") :
    (writeOne form k ts).2 = false ∧
    ∀ d, (writeOne form k ts).1.find? (byName k) = some d →
      List.Forall₂ (fun o o2 =>
        (o.value ∈ ts → o2 = { o with selected := true }) ∧
        (o.value ∉ ts → o2 = o)) c.options d.options := by
  rw [writeOne_multi_eq form k ts c hfind hft]
  refine ⟨rfl, ?_⟩
  intro d hd
  rw [updFirst_find_self (byName k) (fun d => { d with options := d.options.map (fun o =>
    if 0 ≤ jsIndexOf ts o.value then { o with selected := true } else o) }) form
    (fun x => rfl), hfind] at hd
  have hdc : d = { c with options := c.options.map (fun o =>
      if 0 ≤ jsIndexOf ts o.value then { o with selected := true } else o) } :=
    (Option.some.inj hd).symm
  rw [hdc]
  show List.Forall₂ _ c.options (c.options.map (fun o =>
    if 0 ≤ jsIndexOf ts o.value then { o with selected := true } else o))
  rw [List.forall₂_map_right_iff]
  rw [List.forall₂_same]
  intro o ho
  constructor
  · intro hmem
    rw [if_pos (jsIndexOf_nonneg_of_mem ts o.value hmem)]
  · intro hnm
    rw [if_neg (by rw [jsIndexOf_neg_of_not_mem ts o.value hnm]; omega)]

/-- C8 witness: writing tokens ["a"] to a multi-select whose option "b"
is already selected checks "a" and leaves "b" selected. -/
theorem C8_witness :
    List.Forall₂ (fun o o2 =>
      (o.value ∈ ["a"] → o2 = { o with selected := true }) ∧
      (o.value ∉ ["a"] → o2 = o)) multiSelectW.options
      [{ value := "a", selected := true }, { value := "b", selected := true }] := by
  have h := (C8_multi_select_write [multiSelectW] "w" ["a"] multiSelectW (by decide)
    (by decide)).2
    { multiSelectW with options := [{ value := "a", selected := true },
      { value := "b", selected := true }] } (by decide)
  exact h

/-! ## Skeleton and relation infrastructure for the refresh idempotence -/

theorem skel_name (a b : Ctl) (h : skel a = skel b) : a.name = b.name :=
  congrArg Prod.fst h

theorem skel_tag (a b : Ctl) (h : skel a = skel b) : a.tag = b.tag :=
  congrArg (fun s => s.2.1) h

theorem skel_multiple (a b : Ctl) (h : skel a = skel b) : a.multiple = b.multiple :=
  congrArg (fun s => s.2.2.1) h

theorem skel_inputType (a b : Ctl) (h : skel a = skel b) : a.inputType = b.inputType :=
  congrArg (fun s => s.2.2.2.1) h

theorem skel_valueAttr (a b : Ctl) (h : skel a = skel b) : a.valueAttr = b.valueAttr :=
  congrArg (fun s => s.2.2.2.2.1) h

theorem checkFilterType_of_skel (a b : Ctl) (h : skel a = skel b) :
    checkFilterType a = checkFilterType b := by
  unfold checkFilterType
  rw [skel_tag a b h, skel_multiple a b h, skel_inputType a b h]

theorem byName_of_skel (k : String) (a b : Ctl) (h : skel a = skel b) :
    byName k a = byName k b := by
  unfold byName
  rw [skel_name a b h]

theorem byNameVal_of_skel (k v : String) (a b : Ctl) (h : skel a = skel b) :
    byNameVal k v a = byNameVal k v b := by
  unfold byNameVal
  rw [skel_name a b h, skel_valueAttr a b h]

theorem byName_name (k : String) (c : Ctl) (h : byName k c = true) : c.name = k := by
  unfold byName at h
  simpa using h

theorem byNameVal_name (k v : String) (c : Ctl) (h : byNameVal k v c = true) : c.name = k := by
  unfold byNameVal at h
  simpa using (Bool.and_eq_true_iff.mp h).1

theorem rEq_refl (k : String) (a : Ctl) : REq k a a := ⟨rfl, fun _ => rfl⟩

theorem rOnly_refl (k : String) (a : Ctl) : ROnly k a a := ⟨rfl, fun _ => rfl⟩

theorem rOnly_trans (k : String) (a b c : Ctl) (h1 : ROnly k a b) (h2 : ROnly k b c) :
    ROnly k a c := by
  refine ⟨h1.1.trans h2.1, ?_⟩
  intro hne
  have hb : a = b := h1.2 hne
  have hbn : b.name ≠ k := by rw [← hb]; exact hne
  rw [hb]
  exact h2.2 hbn

theorem rChk_refl (a : Ctl) : RChk a a := Or.inl rfl

theorem rChk_skel (a b : Ctl) (h : RChk a b) : skel a = skel b := by
  rcases h with h | h <;> subst h <;> rfl

theorem rChk_checked (a b : Ctl) (h : RChk a b) (ha : a.checked = true) :
    b.checked = true := by
  rcases h with h | h <;> subst h
  · exact ha
  · rfl

theorem rChk_trans (a b c : Ctl) (h1 : RChk a b) (h2 : RChk b c) : RChk a c := by
  rcases h1 with h1 | h1 <;> rcases h2 with h2 | h2 <;> subst h1 <;> subst h2
  · exact Or.inl rfl
  · exact Or.inr rfl
  · exact Or.inr rfl
  · exact Or.inr rfl

theorem ctl_set_checked_self (m : Ctl) (h : m.checked = true) :
    { m with checked := true } = m := by
  cases m
  simp_all

theorem forall₂_trans {R : Ctl → Ctl → Prop}
    (htrans : ∀ a b c, R a b → R b c → R a c) :
    ∀ {x y z : List Ctl}, List.Forall₂ R x y → List.Forall₂ R y z → List.Forall₂ R x z := by
  intro x y z hxy
  induction hxy generalizing z with
  | nil =>
    intro hyz
    cases hyz
    exact List.Forall₂.nil
  | cons hab htl ih =>
    intro hyz
    cases hyz with
    | cons hbc htl2 =>
      exact List.Forall₂.cons (htrans _ _ _ hab hbc) (ih htl2)

theorem forall₂_three_eq {R1 R2 R3 : Ctl → Ctl → Prop} :
    ∀ {f g h : List Ctl}, List.Forall₂ R1 f g → List.Forall₂ R2 f h →
      List.Forall₂ R3 g h →
      (∀ a b c, R1 a b → R2 a c → R3 b c → b = c) → g = h := by
  intro f g h h1
  induction h1 generalizing h with
  | nil =>
    intro h2 h3 _
    cases h2
    cases h3
    rfl
  | cons hab htl ih =>
    intro h2 h3 hpt
    cases h2 with
    | cons hac htl2 =>
      cases h3 with
      | cons hbc htl3 =>
        rw [hpt _ _ _ hab hac hbc, ih htl2 htl3 hpt]

theorem find?_rel {R : Ctl → Ctl → Prop} (p : Ctl → Bool) :
    ∀ {f g : List Ctl}, List.Forall₂ R f g → (∀ a b, R a b → p a = p b) →
      optRel R (f.find? p) (g.find? p) := by
  intro f g hfg hp
  induction hfg with
  | nil => exact trivial
  | cons hab htl ih =>
    rename_i a b l1 l2
    cases hpa : p a with
    | true =>
      have hpb : p b = true := (hp a b hab) ▸ hpa
      simp only [List.find?, hpa, hpb]
      exact hab
    | false =>
      have hpb : p b = false := (hp a b hab) ▸ hpa
      simp only [List.find?, hpa, hpb]
      exact ih

theorem find?_eq_of_forall₂ {R : Ctl → Ctl → Prop} (p : Ctl → Bool)
    {f g : List Ctl} (hfg : List.Forall₂ R f g)
    (hp : ∀ a b, R a b → p a = p b)
    (hid : ∀ a b, R a b → p a = true → a = b) : f.find? p = g.find? p := by
  have hrel := find?_rel p hfg hp
  cases hf : f.find? p with
  | none =>
    cases hg : g.find? p with
    | none => rfl
    | some b =>
      rw [hf, hg] at hrel
      exact absurd hrel (by simp [optRel])
  | some a =>
    cases hg : g.find? p with
    | none =>
      rw [hf, hg] at hrel
      exact absurd hrel (by simp [optRel])
    | some b =>
      rw [hf, hg] at hrel
      have hpa : p a = true := List.find?_some hf
      rw [hid a b hrel hpa]

theorem updFirst_forall₂ {R : Ctl → Ctl → Prop} (p : Ctl → Bool) (f : Ctl → Ctl)
    (hrefl : ∀ c, R c c) (hupd : ∀ c, p c = true → R c (f c)) :
    ∀ l : List Ctl, List.Forall₂ R l (updFirst p f l) := by
  intro l
  induction l with
  | nil => exact List.Forall₂.nil
  | cons c cs ih =>
    cases h : p c with
    | true =>
      show List.Forall₂ R (c :: cs) (if p c then f c :: cs else c :: updFirst p f cs)
      rw [if_pos h]
      exact List.Forall₂.cons (hupd c h) (List.forall₂_same.mpr (fun a _ => hrefl a))
    | false =>
      show List.Forall₂ R (c :: cs) (if p c then f c :: cs else c :: updFirst p f cs)
      rw [if_neg (by simp [h])]
      exact List.Forall₂.cons (hrefl c) ih

theorem updFirst_congr {R : Ctl → Ctl → Prop} (p : Ctl → Bool) (f : Ctl → Ctl)
    (hp : ∀ a b, R a b → p a = p b)
    (hRf : ∀ a b, R a b → p a = true → R (f a) (f b)) :
    ∀ {l m : List Ctl}, List.Forall₂ R l m →
      List.Forall₂ R (updFirst p f l) (updFirst p f m) := by
  intro l m hlm
  induction hlm with
  | nil => exact List.Forall₂.nil
  | cons hab htl ih =>
    rename_i a b l1 l2
    cases hpa : p a with
    | true =>
      have hpb : p b = true := (hp a b hab) ▸ hpa
      show List.Forall₂ R (if p a then f a :: l1 else a :: updFirst p f l1)
        (if p b then f b :: l2 else b :: updFirst p f l2)
      rw [if_pos hpa, if_pos hpb]
      exact List.Forall₂.cons (hRf a b hab hpa) htl
    | false =>
      have hpb : p b = false := (hp a b hab) ▸ hpa
      show List.Forall₂ R (if p a then f a :: l1 else a :: updFirst p f l1)
        (if p b then f b :: l2 else b :: updFirst p f l2)
      rw [if_neg (by simp [hpa]), if_neg (by simp [hpb])]
      exact List.Forall₂.cons hab ih

theorem updFirst_of_find_none (p : Ctl → Bool) (f : Ctl → Ctl) (l : List Ctl)
    (h : l.find? p = none) : updFirst p f l = l := by
  induction l with
  | nil => rfl
  | cons c cs ih =>
    have hpc : p c = false := by
      cases hp : p c with
      | false => rfl
      | true => simp [List.find?, hp] at h
    have htl : cs.find? p = none := by
      simpa [List.find?, hpc] using h
    show (if p c then f c :: cs else c :: updFirst p f cs) = c :: cs
    rw [if_neg (by simp [hpc]), ih htl]

theorem updFirst_noop (p : Ctl → Bool) (f : Ctl → Ctl) (l : List Ctl) (c : Ctl)
    (h : l.find? p = some c) (hc : f c = c) : updFirst p f l = l := by
  induction l with
  | nil => cases h
  | cons a cs ih =>
    cases hpa : p a with
    | true =>
      have hac : a = c := by
        have := h
        simp only [List.find?, hpa] at this
        exact Option.some.inj this
      show (if p a then f a :: cs else a :: updFirst p f cs) = a :: cs
      rw [if_pos hpa, hac, hc]
    | false =>
      have htl : cs.find? p = some c := by
        simpa [List.find?, hpa] using h
      show (if p a then f a :: cs else a :: updFirst p f cs) = a :: cs
      rw [if_neg (by simp [hpa]), ih htl]

theorem updFirst_idem (p : Ctl → Bool) (f : Ctl → Ctl) (l : List Ctl)
    (hf : ∀ c, f (f c) = f c) (hp : ∀ c, p (f c) = p c) :
    updFirst p f (updFirst p f l) = updFirst p f l := by
  induction l with
  | nil => rfl
  | cons c cs ih =>
    cases hpc : p c with
    | true =>
      show updFirst p f (if p c then f c :: cs else c :: updFirst p f cs) =
        if p c then f c :: cs else c :: updFirst p f cs
      rw [if_pos hpc]
      show (if p (f c) then f (f c) :: cs else f c :: updFirst p f cs) = f c :: cs
      rw [if_pos ((hp c) ▸ hpc), hf c]
    | false =>
      show updFirst p f (if p c then f c :: cs else c :: updFirst p f cs) =
        if p c then f c :: cs else c :: updFirst p f cs
      rw [if_neg (by simp [hpc])]
      show (if p c then f c :: (updFirst p f cs) else c :: updFirst p f (updFirst p f cs)) =
        c :: updFirst p f cs
      rw [if_neg (by simp [hpc]), ih]

/-! ## Branch equations for the write direction -/

theorem writeOne_none (form : List Ctl) (k : String) (ts : List String)
    (h : form.find? (byName k) = none) : writeOne form k ts = (form, false) := by
  unfold writeOne
  rw [h]

theorem writeOne_type_none (form : List Ctl) (k : String) (ts : List String) (c : Ctl)
    (hfind : form.find? (byName k) = some c) (hft : checkFilterType c = none) :
    writeOne form k ts = (form, false) := by
  unfold writeOne
  rw [hfind]
  simp only [hft]

theorem writeOne_radio (form : List Ctl) (k : String) (ts : List String) (c : Ctl)
    (hfind : form.find? (byName k) = some c) (hft : checkFilterType c = some "radio") :
    writeOne form k ts =
      (match form.find? (byNameVal k (jsJoin ',' ts)) with
      | some _ => (updFirst (byNameVal k (jsJoin ',' ts))
          (fun d => { d with checked := true }) form, false)
      | none => (form, true)) := by
  unfold writeOne
  rw [hfind]
  have h1 : singleWriteTypes.contains "radio" = false := by decide
  have h2 : ("radio" == "select-multiple") = false := by decide
  have h3 : ("radio" == "radio") = true := by decide
  simp only [hft, h1, h2, h3, Bool.false_eq_true, if_false, if_true]

theorem writeOne_checkbox (form : List Ctl) (k : String) (ts : List String) (c : Ctl)
    (hfind : form.find? (byName k) = some c) (hft : checkFilterType c = some "checkbox") :
    writeOne form k ts = writeCheckboxTokens k form ts := by
  unfold writeOne
  rw [hfind]
  have h1 : singleWriteTypes.contains "checkbox" = false := by decide
  have h2 : ("checkbox" == "select-multiple") = false := by decide
  have h3 : ("checkbox" == "radio") = false := by decide
  have h4 : ("checkbox" == "checkbox") = true := by decide
  simp only [hft, h1, h2, h3, h4, Bool.false_eq_true, if_false, if_true]

theorem writeOne_default (form : List Ctl) (k : String) (ts : List String) (c : Ctl)
    (t : String) (hfind : form.find? (byName k) = some c)
    (hft : checkFilterType c = some t)
    (h1 : singleWriteTypes.contains t = false) (h2 : (t == "select-multiple") = false)
    (h3 : (t == "radio") = false) (h4 : (t == "checkbox") = false) :
    writeOne form k ts = (form, false) := by
  unfold writeOne
  rw [hfind]
  simp only [hft, h1, h2, h3, h4, Bool.false_eq_true, if_false]

theorem writeCheckboxTokens_cons (k v : String) (vs : List String) (form : List Ctl) :
    writeCheckboxTokens k form (v :: vs) =
      (match form.find? (byNameVal k v) with
      | some _ => writeCheckboxTokens k
          (updFirst (byNameVal k v) (fun c => { c with checked := true }) form) vs
      | none => (form, true)) := rfl

/-! ## Helper facts about the option-marking map -/

theorem selOpt_phi_value (ts : List String) (o : SelOpt) :
    ((fun o => if 0 ≤ jsIndexOf ts o.value then { o with selected := true } else o) o).value =
      o.value := by
  by_cases hc : 0 ≤ jsIndexOf ts o.value <;> simp [hc]

theorem selOpt_phi_idem (ts : List String) (o : SelOpt) :
    (fun o => if 0 ≤ jsIndexOf ts o.value then { o with selected := true } else o)
      ((fun o => if 0 ≤ jsIndexOf ts o.value then { o with selected := true } else o) o) =
    (fun o => if 0 ≤ jsIndexOf ts o.value then { o with selected := true } else o) o := by
  by_cases hc : 0 ≤ jsIndexOf ts o.value <;> simp [hc]

theorem mapPhi_idem (ts : List String) (l : List SelOpt) :
    (l.map (fun o => if 0 ≤ jsIndexOf ts o.value then { o with selected := true } else o)).map
      (fun o => if 0 ≤ jsIndexOf ts o.value then { o with selected := true } else o) =
    l.map (fun o => if 0 ≤ jsIndexOf ts o.value then { o with selected := true } else o) := by
  rw [List.map_map]
  apply List.map_congr_left
  intro o _
  exact selOpt_phi_idem ts o

theorem skel_multiOpt (ts : List String) (c : Ctl) :
    skel { c with options := c.options.map (fun o =>
      if 0 ≤ jsIndexOf ts o.value then { o with selected := true } else o) } = skel c := by
  have h : (c.options.map (fun o =>
      if 0 ≤ jsIndexOf ts o.value then { o with selected := true } else o)).map SelOpt.value
      = c.options.map SelOpt.value := by
    rw [List.map_map]
    apply List.map_congr_left
    intro o _
    exact selOpt_phi_value ts o
  show (c.name, c.tag, c.multiple, c.inputType, c.valueAttr,
    (c.options.map (fun o =>
      if 0 ≤ jsIndexOf ts o.value then { o with selected := true } else o)).map SelOpt.value) =
    (c.name, c.tag, c.multiple, c.inputType, c.valueAttr, c.options.map SelOpt.value)
  rw [h]

/-! ## Locality: a write for name k changes only controls named k -/

theorem writeCheckbox_rOnly (k : String) :
    ∀ (ts : List String) (form : List Ctl),
      List.Forall₂ (ROnly k) form (writeCheckboxTokens k form ts).1 := by
  intro ts
  induction ts with
  | nil =>
    intro form
    exact List.forall₂_same.mpr (fun a _ => rOnly_refl k a)
  | cons v vs ih =>
    intro form
    rw [writeCheckboxTokens_cons]
    cases hf : form.find? (byNameVal k v) with
    | none => exact List.forall₂_same.mpr (fun a _ => rOnly_refl k a)
    | some m =>
      show List.Forall₂ (ROnly k) form
        (writeCheckboxTokens k
          (updFirst (byNameVal k v) (fun c => { c with checked := true }) form) vs).1
      have h1 : List.Forall₂ (ROnly k) form
          (updFirst (byNameVal k v) (fun c => { c with checked := true }) form) :=
        updFirst_forall₂ (byNameVal k v) (fun c => { c with checked := true })
          (rOnly_refl k)
          (fun c hc => ⟨rfl, fun hne => absurd (byNameVal_name k v c hc) hne⟩) form
      exact forall₂_trans (rOnly_trans k) h1 (ih _)

theorem writeOne_rOnly (form : List Ctl) (k : String) (ts : List String) :
    List.Forall₂ (ROnly k) form (writeOne form k ts).1 := by
  cases hfind : form.find? (byName k) with
  | none =>
    rw [writeOne_none form k ts hfind]
    exact List.forall₂_same.mpr (fun a _ => rOnly_refl k a)
  | some c =>
    cases hft : checkFilterType c with
    | none =>
      rw [writeOne_type_none form k ts c hfind hft]
      exact List.forall₂_same.mpr (fun a _ => rOnly_refl k a)
    | some t =>
      by_cases h1 : singleWriteTypes.contains t = true
      · rw [writeOne_single form k ts c t hfind hft h1]
        show List.Forall₂ (ROnly k) form
          (updFirst (byName k) (fun d => { d with valueProp := jsJoin ',' ts }) form)
        exact updFirst_forall₂ (byName k) (fun d => { d with valueProp := jsJoin ',' ts })
          (rOnly_refl k)
          (fun d hd => ⟨rfl, fun hne => absurd (byName_name k d hd) hne⟩) form
      · by_cases h2 : (t == "select-multiple") = true
        · have ht : t = "select-multiple" := by simpa using h2
          subst ht
          rw [writeOne_multi_eq form k ts c hfind hft]
          show List.Forall₂ (ROnly k) form
            (updFirst (byName k) (fun d => { d with options := d.options.map (fun o =>
              if 0 ≤ jsIndexOf ts o.value then { o with selected := true } else o) }) form)
          exact updFirst_forall₂ (byName k)
            (fun d => { d with options := d.options.map (fun o =>
              if 0 ≤ jsIndexOf ts o.value then { o with selected := true } else o) })
            (rOnly_refl k)
            (fun d hd => ⟨(skel_multiOpt ts d).symm,
              fun hne => absurd (byName_name k d hd) hne⟩) form
        · by_cases h3 : (t == "radio") = true
          · have ht : t = "radio" := by simpa using h3
            subst ht
            rw [writeOne_radio form k ts c hfind hft]
            cases hf : form.find? (byNameVal k (jsJoin ',' ts)) with
            | none => exact List.forall₂_same.mpr (fun a _ => rOnly_refl k a)
            | some m =>
              show List.Forall₂ (ROnly k) form
                (updFirst (byNameVal k (jsJoin ',' ts))
                  (fun d => { d with checked := true }) form)
              exact updFirst_forall₂ (byNameVal k (jsJoin ',' ts))
                (fun d => { d with checked := true }) (rOnly_refl k)
                (fun d hd => ⟨rfl, fun hne =>
                  absurd (byNameVal_name k (jsJoin ',' ts) d hd) hne⟩) form
          · by_cases h4 : (t == "checkbox") = true
            · have ht : t = "checkbox" := by simpa using h4
              subst ht
              rw [writeOne_checkbox form k ts c hfind hft]
              exact writeCheckbox_rOnly k ts form
            · rw [writeOne_default form k ts c t hfind hft
                (Bool.not_eq_true _ ▸ h1) (Bool.not_eq_true _ ▸ h2)
                (Bool.not_eq_true _ ▸ h3) (Bool.not_eq_true _ ▸ h4)]
              exact List.forall₂_same.mpr (fun a _ => rOnly_refl k a)

/-! ## Congruence: a write for name k reads only skeletons and name-k controls -/

theorem rEq_byNameVal (k v : String) (a b : Ctl) (h : REq k a b) :
    byNameVal k v a = byNameVal k v b := byNameVal_of_skel k v a b h.1

theorem rEq_byNameVal_id (k v : String) (a b : Ctl) (h : REq k a b)
    (hp : byNameVal k v a = true) : a = b := h.2 (byNameVal_name k v a hp)

theorem writeCheckbox_congr (k : String) :
    ∀ (ts : List String) {f g : List Ctl}, List.Forall₂ (REq k) f g →
      (writeCheckboxTokens k f ts).2 = (writeCheckboxTokens k g ts).2 ∧
      List.Forall₂ (REq k) (writeCheckboxTokens k f ts).1 (writeCheckboxTokens k g ts).1 := by
  intro ts
  induction ts with
  | nil =>
    intro f g h
    exact ⟨rfl, h⟩
  | cons v vs ih =>
    intro f g h
    have hfind : f.find? (byNameVal k v) = g.find? (byNameVal k v) :=
      find?_eq_of_forall₂ (byNameVal k v) h (fun a b hab => rEq_byNameVal k v a b hab)
        (fun a b hab hp => rEq_byNameVal_id k v a b hab hp)
    cases hf : f.find? (byNameVal k v) with
    | none =>
      have hg : g.find? (byNameVal k v) = none := by rw [← hfind]; exact hf
      rw [writeCheckboxTokens_cons, writeCheckboxTokens_cons, hf, hg]
      exact ⟨rfl, h⟩
    | some m =>
      have hg : g.find? (byNameVal k v) = some m := by rw [← hfind]; exact hf
      rw [writeCheckboxTokens_cons, writeCheckboxTokens_cons, hf, hg]
      exact ih (updFirst_congr (byNameVal k v) (fun c => { c with checked := true })
        (fun a b hab => rEq_byNameVal k v a b hab)
        (fun a b hab hp => by rw [rEq_byNameVal_id k v a b hab hp]; exact rEq_refl k _) h)

theorem writeOne_congr (k : String) (ts : List String) {f g : List Ctl}
    (h : List.Forall₂ (REq k) f g) :
    (writeOne f k ts).2 = (writeOne g k ts).2 ∧
    List.Forall₂ (REq k) (writeOne f k ts).1 (writeOne g k ts).1 := by
  have hfind : f.find? (byName k) = g.find? (byName k) :=
    find?_eq_of_forall₂ (byName k) h (fun a b hab => byName_of_skel k a b hab.1)
      (fun a b hab hp => hab.2 (byName_name k a hp))
  cases hf : f.find? (byName k) with
  | none =>
    have hg : g.find? (byName k) = none := by rw [← hfind]; exact hf
    rw [writeOne_none f k ts hf, writeOne_none g k ts hg]
    exact ⟨rfl, h⟩
  | some c =>
    have hg : g.find? (byName k) = some c := by rw [← hfind]; exact hf
    cases hft : checkFilterType c with
    | none =>
      rw [writeOne_type_none f k ts c hf hft, writeOne_type_none g k ts c hg hft]
      exact ⟨rfl, h⟩
    | some t =>
      by_cases h1 : singleWriteTypes.contains t = true
      · rw [writeOne_single f k ts c t hf hft h1, writeOne_single g k ts c t hg hft h1]
        refine ⟨rfl, ?_⟩
        exact updFirst_congr (byName k) (fun d => { d with valueProp := jsJoin ',' ts })
          (fun a b hab => byName_of_skel k a b hab.1)
          (fun a b hab hp => by rw [hab.2 (byName_name k a hp)]; exact rEq_refl k _) h
      · by_cases h2 : (t == "select-multiple") = true
        · have ht : t = "select-multiple" := by simpa using h2
          subst ht
          rw [writeOne_multi_eq f k ts c hf hft, writeOne_multi_eq g k ts c hg hft]
          refine ⟨rfl, ?_⟩
          exact updFirst_congr (byName k) (fun d => { d with options := d.options.map (fun o =>
              if 0 ≤ jsIndexOf ts o.value then { o with selected := true } else o) })
            (fun a b hab => byName_of_skel k a b hab.1)
            (fun a b hab hp => by rw [hab.2 (byName_name k a hp)]; exact rEq_refl k _) h
        · by_cases h3 : (t == "radio") = true
          · have ht : t = "radio" := by simpa using h3
            subst ht
            have hfind2 : f.find? (byNameVal k (jsJoin ',' ts)) =
                g.find? (byNameVal k (jsJoin ',' ts)) :=
              find?_eq_of_forall₂ (byNameVal k (jsJoin ',' ts)) h
                (fun a b hab => rEq_byNameVal k (jsJoin ',' ts) a b hab)
                (fun a b hab hp => rEq_byNameVal_id k (jsJoin ',' ts) a b hab hp)
            rw [writeOne_radio f k ts c hf hft, writeOne_radio g k ts c hg hft]
            cases hfv : f.find? (byNameVal k (jsJoin ',' ts)) with
            | none =>
              have hgv : g.find? (byNameVal k (jsJoin ',' ts)) = none := by
                rw [← hfind2]; exact hfv
              rw [hgv]
              exact ⟨rfl, h⟩
            | some m =>
              have hgv : g.find? (byNameVal k (jsJoin ',' ts)) = some m := by
                rw [← hfind2]; exact hfv
              rw [hgv]
              refine ⟨rfl, ?_⟩
              exact updFirst_congr (byNameVal k (jsJoin ',' ts))
                (fun d => { d with checked := true })
                (fun a b hab => rEq_byNameVal k (jsJoin ',' ts) a b hab)
                (fun a b hab hp => by
                  rw [rEq_byNameVal_id k (jsJoin ',' ts) a b hab hp]
                  exact rEq_refl k _) h
          · by_cases h4 : (t == "checkbox") = true
            · have ht : t = "checkbox" := by simpa using h4
              subst ht
              rw [writeOne_checkbox f k ts c hf hft, writeOne_checkbox g k ts c hg hft]
              exact writeCheckbox_congr k ts h
            · rw [writeOne_default f k ts c t hf hft (Bool.not_eq_true _ ▸ h1)
                (Bool.not_eq_true _ ▸ h2) (Bool.not_eq_true _ ▸ h3) (Bool.not_eq_true _ ▸ h4),
                writeOne_default g k ts c t hg hft (Bool.not_eq_true _ ▸ h1)
                (Bool.not_eq_true _ ▸ h2) (Bool.not_eq_true _ ▸ h3) (Bool.not_eq_true _ ▸ h4)]
              exact ⟨rfl, h⟩

/-! ## One write is idempotent, also through its thrown-error path -/

theorem writeCheckbox_rChk (k : String) :
    ∀ (ts : List String) (form : List Ctl),
      List.Forall₂ RChk form (writeCheckboxTokens k form ts).1 := by
  intro ts
  induction ts with
  | nil =>
    intro form
    exact List.forall₂_same.mpr (fun a _ => rChk_refl a)
  | cons v vs ih =>
    intro form
    rw [writeCheckboxTokens_cons]
    cases hf : form.find? (byNameVal k v) with
    | none => exact List.forall₂_same.mpr (fun a _ => rChk_refl a)
    | some m =>
      show List.Forall₂ RChk form
        (writeCheckboxTokens k
          (updFirst (byNameVal k v) (fun c => { c with checked := true }) form) vs).1
      have h1 : List.Forall₂ RChk form
          (updFirst (byNameVal k v) (fun c => { c with checked := true }) form) :=
        updFirst_forall₂ (byNameVal k v) (fun c => { c with checked := true })
          rChk_refl (fun c _ => Or.inr rfl) form
      exact forall₂_trans rChk_trans h1 (ih _)

theorem writeCheckbox_idem (k : String) :
    ∀ (ts : List String) (form : List Ctl),
      writeCheckboxTokens k ((writeCheckboxTokens k form ts).1) ts =
        writeCheckboxTokens k form ts := by
  intro ts
  induction ts with
  | nil =>
    intro form
    rfl
  | cons v vs ih =>
    intro form
    cases hf : form.find? (byNameVal k v) with
    | none =>
      have h0 : writeCheckboxTokens k form (v :: vs) = (form, true) := by
        rw [writeCheckboxTokens_cons, hf]
      rw [h0]
      show writeCheckboxTokens k form (v :: vs) = (form, true)
      exact h0
    | some m =>
      have h0 : writeCheckboxTokens k form (v :: vs) =
          writeCheckboxTokens k
            (updFirst (byNameVal k v) (fun c => { c with checked := true }) form) vs := by
        rw [writeCheckboxTokens_cons, hf]
      rw [h0]
      have hf1find : (updFirst (byNameVal k v) (fun c => { c with checked := true })
          form).find? (byNameVal k v) = some { m with checked := true } := by
        rw [updFirst_find_self (byNameVal k v) (fun c => { c with checked := true }) form
          (fun c => rfl), hf]
        rfl
      have hchain := writeCheckbox_rChk k vs
        (updFirst (byNameVal k v) (fun c => { c with checked := true }) form)
      have hrel := find?_rel (byNameVal k v) hchain
        (fun a b hab => byNameVal_of_skel k v a b (rChk_skel a b hab))
      rw [hf1find] at hrel
      cases hf2 : (writeCheckboxTokens k
          (updFirst (byNameVal k v) (fun c => { c with checked := true }) form) vs).1.find?
          (byNameVal k v) with
      | none =>
        rw [hf2] at hrel
        exact hrel.elim
      | some m2 =>
        rw [hf2] at hrel
        have hm2 : m2.checked = true := rChk_checked _ _ hrel rfl
        have h3 : writeCheckboxTokens k
            ((writeCheckboxTokens k
              (updFirst (byNameVal k v) (fun c => { c with checked := true }) form) vs).1)
            (v :: vs) =
            writeCheckboxTokens k
              (updFirst (byNameVal k v) (fun c => { c with checked := true })
                ((writeCheckboxTokens k
                  (updFirst (byNameVal k v) (fun c => { c with checked := true }) form)
                  vs).1))
              vs := by
          rw [writeCheckboxTokens_cons, hf2]
        rw [h3, updFirst_noop (byNameVal k v) (fun c => { c with checked := true }) _ m2 hf2
          (ctl_set_checked_self m2 hm2)]
        exact ih _

theorem writeOne_idem (form : List Ctl) (k : String) (ts : List String) :
    writeOne ((writeOne form k ts).1) k ts = writeOne form k ts := by
  cases hfind : form.find? (byName k) with
  | none =>
    rw [writeOne_none form k ts hfind]
    show writeOne form k ts = (form, false)
    exact writeOne_none form k ts hfind
  | some c =>
    cases hft : checkFilterType c with
    | none =>
      rw [writeOne_type_none form k ts c hfind hft]
      show writeOne form k ts = (form, false)
      exact writeOne_type_none form k ts c hfind hft
    | some t =>
      by_cases h1 : singleWriteTypes.contains t = true
      · rw [writeOne_single form k ts c t hfind hft h1]
        show writeOne (updFirst (byName k)
            (fun d => { d with valueProp := jsJoin ',' ts }) form) k ts =
          (updFirst (byName k) (fun d => { d with valueProp := jsJoin ',' ts }) form, false)
        have hfind2 : (updFirst (byName k) (fun d => { d with valueProp := jsJoin ',' ts })
            form).find? (byName k) = some { c with valueProp := jsJoin ',' ts } := by
          rw [updFirst_find_self (byName k) (fun d => { d with valueProp := jsJoin ',' ts })
            form (fun d => rfl), hfind]
          rfl
        have hft2 : checkFilterType { c with valueProp := jsJoin ',' ts } = some t := hft
        rw [writeOne_single _ k ts _ t hfind2 hft2 h1,
          updFirst_idem (byName k) (fun d => { d with valueProp := jsJoin ',' ts }) form
            (fun d => rfl) (fun d => rfl)]
      · by_cases h2 : (t == "select-multiple") = true
        · have ht : t = "select-multiple" := by simpa using h2
          subst ht
          rw [writeOne_multi_eq form k ts c hfind hft]
          show writeOne (updFirst (byName k) (fun d => { d with options := d.options.map (fun o =>
              if 0 ≤ jsIndexOf ts o.value then { o with selected := true } else o) })
            form) k ts =
            (updFirst (byName k) (fun d => { d with options := d.options.map (fun o =>
              if 0 ≤ jsIndexOf ts o.value then { o with selected := true } else o) })
            form, false)
          have hfind2 : (updFirst (byName k) (fun d => { d with options := d.options.map (fun o =>
              if 0 ≤ jsIndexOf ts o.value then { o with selected := true } else o) })
              form).find? (byName k) = some { c with options := c.options.map (fun o =>
              if 0 ≤ jsIndexOf ts o.value then { o with selected := true } else o) } := by
            rw [updFirst_find_self (byName k) (fun d => { d with options := d.options.map (fun o =>
              if 0 ≤ jsIndexOf ts o.value then { o with selected := true } else o) })
              form (fun d => rfl), hfind]
            rfl
          have hft2 : checkFilterType { c with options := c.options.map (fun o =>
              if 0 ≤ jsIndexOf ts o.value then { o with selected := true } else o) } =
              some "select-multiple" := hft
          rw [writeOne_multi_eq _ k ts _ hfind2 hft2,
            updFirst_idem (byName k) (fun d => { d with options := d.options.map (fun o =>
              if 0 ≤ jsIndexOf ts o.value then { o with selected := true } else o) })
              form (fun d => congrArg (fun l => Ctl.mk d.name d.tag d.multiple d.inputType
                d.valueAttr d.valueProp d.checked l) (mapPhi_idem ts d.options))
              (fun d => rfl)]
        · by_cases h3 : (t == "radio") = true
          · have ht : t = "radio" := by simpa using h3
            subst ht
            rw [writeOne_radio form k ts c hfind hft]
            cases hfv : form.find? (byNameVal k (jsJoin ',' ts)) with
            | none =>
              show writeOne form k ts = (form, true)
              rw [writeOne_radio form k ts c hfind hft, hfv]
            | some m =>
              show writeOne (updFirst (byNameVal k (jsJoin ',' ts))
                  (fun d => { d with checked := true }) form) k ts =
                (updFirst (byNameVal k (jsJoin ',' ts))
                  (fun d => { d with checked := true }) form, false)
              have hskel : List.Forall₂ (fun a b => skel a = skel b) form
                  (updFirst (byNameVal k (jsJoin ',' ts))
                    (fun d => { d with checked := true }) form) :=
                updFirst_forall₂ (byNameVal k (jsJoin ',' ts))
                  (fun d => { d with checked := true })
                  (fun c2 => (rfl : skel c2 = skel c2))
                  (fun c2 _ => (rfl : skel c2 = skel { c2 with checked := true })) form
              have hrel := find?_rel (byName k) hskel (fun a b hab => byName_of_skel k a b hab)
              rw [hfind] at hrel
              cases hfind2 : (updFirst (byNameVal k (jsJoin ',' ts))
                  (fun d => { d with checked := true }) form).find? (byName k) with
              | none =>
                rw [hfind2] at hrel
                exact hrel.elim
              | some c1 =>
                rw [hfind2] at hrel
                have hft2 : checkFilterType c1 = some "radio" := by
                  rw [← checkFilterType_of_skel c c1 hrel]
                  exact hft
                rw [writeOne_radio _ k ts c1 hfind2 hft2]
                have hfv2 : (updFirst (byNameVal k (jsJoin ',' ts))
                    (fun d => { d with checked := true }) form).find?
                    (byNameVal k (jsJoin ',' ts)) = some { m with checked := true } := by
                  rw [updFirst_find_self (byNameVal k (jsJoin ',' ts))
                    (fun d => { d with checked := true }) form (fun d => rfl), hfv]
                  rfl
                rw [hfv2]
                show (updFirst (byNameVal k (jsJoin ',' ts)) (fun d => { d with checked := true })
                    (updFirst (byNameVal k (jsJoin ',' ts))
                      (fun d => { d with checked := true }) form), false) =
                  (updFirst (byNameVal k (jsJoin ',' ts))
                    (fun d => { d with checked := true }) form, false)
                rw [updFirst_idem (byNameVal k (jsJoin ',' ts))
                  (fun d => { d with checked := true }) form (fun d => rfl) (fun d => rfl)]
          · by_cases h4 : (t == "checkbox") = true
            · have ht : t = "checkbox" := by simpa using h4
              subst ht
              rw [writeOne_checkbox form k ts c hfind hft]
              have hchain := writeCheckbox_rChk k ts form
              have hrel := find?_rel (byName k) hchain
                (fun a b hab => byName_of_skel k a b (rChk_skel a b hab))
              rw [hfind] at hrel
              cases hfind2 : (writeCheckboxTokens k form ts).1.find? (byName k) with
              | none =>
                rw [hfind2] at hrel
                exact hrel.elim
              | some c1 =>
                rw [hfind2] at hrel
                have hft2 : checkFilterType c1 = some "checkbox" := by
                  rw [← checkFilterType_of_skel c c1 (rChk_skel c c1 hrel)]
                  exact hft
                rw [writeOne_checkbox _ k ts c1 hfind2 hft2]
                exact writeCheckbox_idem k ts form
            · rw [writeOne_default form k ts c t hfind hft (Bool.not_eq_true _ ▸ h1)
                (Bool.not_eq_true _ ▸ h2) (Bool.not_eq_true _ ▸ h3) (Bool.not_eq_true _ ▸ h4)]
              show writeOne form k ts = (form, false)
              exact writeOne_default form k ts c t hfind hft (Bool.not_eq_true _ ▸ h1)
                (Bool.not_eq_true _ ▸ h2) (Bool.not_eq_true _ ▸ h3) (Bool.not_eq_true _ ▸ h4)

/-! ## Transporting a write fixpoint across writes for other names -/

theorem rEq_of_rOnly (k q : String) (hne : q ≠ k) (a b : Ctl) (h : ROnly k a b) :
    REq q a b :=
  ⟨h.1, fun hname => h.2 (by rw [hname]; exact hne)⟩

theorem fix_transport (k : String) (ts : List String) (e : Bool) {f g : List Ctl}
    (hfix : writeOne f k ts = (f, e)) (heq : List.Forall₂ (REq k) f g) :
    writeOne g k ts = (g, e) := by
  obtain ⟨herr, hout⟩ := writeOne_congr k ts heq
  have hloc := writeOne_rOnly g k ts
  rw [hfix] at herr hout
  have hgeq : g = (writeOne g k ts).1 :=
    forall₂_three_eq heq hout hloc (by
      intro a b c h1 h2 h3
      by_cases hbn : b.name = k
      · have han : a.name = k := by rw [skel_name a b h1.1]; exact hbn
        rw [← h1.2 han, ← h2.2 han]
      · exact h3.2 hbn)
  exact Prod.ext hgeq.symm herr.symm

theorem applyEntries_cons (k : String) (ts : List String)
    (rest : List (String × List String)) (form : List Ctl) :
    applyEntries ((k, ts) :: rest) form =
      (if (writeOne form k ts).2 then writeOne form k ts
       else applyEntries rest (writeOne form k ts).1) := rfl

theorem applyEntries_fix_chain (k : String) (ts : List String) (e : Bool) :
    ∀ (rest : List (String × List String)) (f : List Ctl),
      writeOne f k ts = (f, e) → (∀ q ∈ rest, q.1 ≠ k) →
      writeOne ((applyEntries rest f).1) k ts = ((applyEntries rest f).1, e) := by
  intro rest
  induction rest with
  | nil =>
    intro f hfix _
    exact hfix
  | cons p rest ih =>
    intro f hfix hk
    obtain ⟨k2, ts2⟩ := p
    have hne : k2 ≠ k := hk (k2, ts2) (List.mem_cons_self _ _)
    have heq : List.Forall₂ (REq k) f (writeOne f k2 ts2).1 :=
      List.Forall₂.imp
        (fun a b hab => rEq_of_rOnly k2 k (Ne.symm hne) a b hab)
        (writeOne_rOnly f k2 ts2)
    have hfix2 : writeOne ((writeOne f k2 ts2).1) k ts = ((writeOne f k2 ts2).1, e) :=
      fix_transport k ts e hfix heq
    rw [applyEntries_cons]
    cases he : (writeOne f k2 ts2).2 with
    | true =>
      rw [if_pos rfl]
      exact hfix2
    | false =>
      rw [if_neg Bool.false_ne_true]
      exact ih _ hfix2 (fun q hq => hk q (List.mem_cons_of_mem _ hq))

theorem applyEntries_idem :
    ∀ (es : List (String × List String)) (form : List Ctl),
      List.Pairwise (fun p q => p.1 ≠ q.1) es →
      applyEntries es ((applyEntries es form).1) = applyEntries es form := by
  intro es
  induction es with
  | nil =>
    intro form _
    rfl
  | cons p rest ih =>
    intro form hpw
    obtain ⟨k, ts⟩ := p
    have hk : ∀ q ∈ rest, q.1 ≠ k := by
      intro q hq
      exact Ne.symm ((List.pairwise_cons.mp hpw).1 q hq)
    have hrest := (List.pairwise_cons.mp hpw).2
    cases he : (writeOne form k ts).2 with
    | true =>
      have hA : applyEntries ((k, ts) :: rest) form = writeOne form k ts := by
        rw [applyEntries_cons, if_pos he]
      rw [hA]
      have hB : applyEntries ((k, ts) :: rest) ((writeOne form k ts).1) =
          (if (writeOne ((writeOne form k ts).1) k ts).2
           then writeOne ((writeOne form k ts).1) k ts
           else applyEntries rest (writeOne ((writeOne form k ts).1) k ts).1) :=
        applyEntries_cons k ts rest _
      rw [hB, writeOne_idem form k ts, if_pos he]
    | false =>
      have hA : applyEntries ((k, ts) :: rest) form =
          applyEntries rest (writeOne form k ts).1 := by
        rw [applyEntries_cons]
        simp only [he, Bool.false_eq_true, if_false]
      rw [hA]
      have hfix1 : writeOne ((writeOne form k ts).1) k ts = ((writeOne form k ts).1, false) := by
        rw [writeOne_idem form k ts]
        exact Prod.ext rfl he
      have hfix2 := applyEntries_fix_chain k ts false rest ((writeOne form k ts).1) hfix1 hk
      have hB : applyEntries ((k, ts) :: rest)
          ((applyEntries rest (writeOne form k ts).1).1) =
          (if (writeOne ((applyEntries rest (writeOne form k ts).1).1) k ts).2
           then writeOne ((applyEntries rest (writeOne form k ts).1).1) k ts
           else applyEntries rest
             (writeOne ((applyEntries rest (writeOne form k ts).1).1) k ts).1) :=
        applyEntries_cons k ts rest _
      rw [hB, hfix2]
      show applyEntries rest ((applyEntries rest (writeOne form k ts).1).1) =
        applyEntries rest (writeOne form k ts).1
      exact ih _ hrest

/-! ## The parsed mapping has pairwise distinct names -/

theorem keysNodup_objInsert (m : List (String × List String)) (k : String)
    (v : List String) (h : List.Pairwise (fun p q => p.1 ≠ q.1) m) :
    List.Pairwise (fun p q => p.1 ≠ q.1) (objInsert m k v) := by
  unfold objInsert
  by_cases hany : m.any (fun p => p.1 == k) = true
  · rw [if_pos hany]
    have hkey : ∀ p : String × List String,
        ((if p.1 == k then (k, v) else p)).1 = p.1 := by
      intro p
      by_cases hp : (p.1 == k) = true
      · rw [if_pos hp]
        exact (by simpa using hp : p.1 = k).symm
      · rw [if_neg hp]
    rw [List.pairwise_map]
    refine h.imp ?_
    intro a b hab
    rw [hkey a, hkey b]
    exact hab
  · rw [if_neg hany]
    rw [List.pairwise_append]
    refine ⟨h, List.pairwise_singleton _ _, ?_⟩
    intro a ha b hb
    have hb2 : b = (k, v) := by simpa using hb
    subst hb2
    intro hak
    exact hany (List.any_eq_true.mpr ⟨a, ha, by simp [hak]⟩)

theorem parse_keys_nodup_foldl (isReg : String → Bool) :
    ∀ (params : Params) (acc : List (String × List String)),
      List.Pairwise (fun p q => p.1 ≠ q.1) acc →
      List.Pairwise (fun p q => p.1 ≠ q.1)
        (params.foldl
          (fun m p => if isReg p.1 then objInsert m p.1 (jsSplit ' ' p.2) else m) acc) := by
  intro params
  induction params with
  | nil =>
    intro acc h
    exact h
  | cons p ps ih =>
    intro acc h
    rw [List.foldl_cons]
    by_cases hr : isReg p.1 = true
    · rw [if_pos hr]
      exact ih _ (keysNodup_objInsert acc p.1 _ h)
    · rw [if_neg hr]
      exact ih _ h

theorem parse_keys_nodup (isReg : String → Bool) (params : Params) :
    List.Pairwise (fun p q => p.1 ≠ q.1) (parseFiltersFromUrl isReg params) :=
  parse_keys_nodup_foldl isReg params [] List.Pairwise.nil

/-! ## Claim C9 -/

/-- C9: re-applying the current address state to the controls twice in a
row with no intervening interaction leaves the controls exactly as after
one application, with the same thrown-or-not outcome: the parsed mapping
and the registration lookups depend only on immutable attributes, every
branch of the write loop is idempotent, and writes for distinct names
touch disjoint controls. -/
theorem C9_refresh_idempotent (isReg : String → Bool) (form : List Ctl) (params : Params) :
    updateFiltersFromUrl isReg ((updateFiltersFromUrl isReg form params).1) params =
      updateFiltersFromUrl isReg form params := by
  by_cases he : (parseFiltersFromUrl isReg params).isEmpty = true
  · have h1 : ∀ fm : List Ctl, updateFiltersFromUrl isReg fm params = (fm, false) := by
      intro fm
      unfold updateFiltersFromUrl
      rw [if_pos he]
    rw [h1 form]
    exact h1 form
  · have h1 : ∀ fm : List Ctl, updateFiltersFromUrl isReg fm params =
        applyEntries (parseFiltersFromUrl isReg params) fm := by
      intro fm
      unfold updateFiltersFromUrl
      rw [if_neg he]
    rw [h1 form, h1 ((applyEntries (parseFiltersFromUrl isReg params) form).1)]
    exact applyEntries_idem _ form (parse_keys_nodup isReg params)

end FilterDomUrl
